import Mathlib

/-!
Verification of the NullGravity request-routing and account-pool subsystem.

This file gives a shallow embedding, in Lean, of the parts of the backend
that the routing/pool specification talks about:

* the JSON value model, together with executable models of Python's
  `json.dumps` / `json.loads` (restricted to the value shapes the proxy
  produces: null, booleans, integers, strings, arrays, objects; the default
  separators `", "` / `": "` of `json.dumps` are reproduced, strings are
  escaped with the standard JSON short escapes and `\uXXXX` for the other
  control characters),
* `_clean_schema_for_gemini` from `services/openai_compat.py`,
* `_extract_gemini_parts` and the OpenAI message construction of
  `_handle_non_stream` from `services/openai_compat.py`,
* the `max_tokens` / `temperature` normalisation of `chat_completions` and
  `anthropic_messages` from `services/openai_compat.py`,
* `_refresh_credential` from `services/auto_refresh.py`,
* the quota-percent aggregation of `sync_account_info` from
  `services/sync.py`,
* the `AccountPool` runtime state with `refresh`, `get_current`, `rotate`,
  `_clean_stale_bindings`, `_assign_least_loaded`, `_is_available`,
  `_find_available_fallback`, `_read_account` from
  `services/cloudcode_proxy.py`,
* the retry loops of `handle_proxy_request` (native passthrough) and of
  `chat_completions` / `anthropic_messages` (translator paths).

Timestamps are modelled as natural numbers (seconds).  Stateful Python
methods become pure state transformers; DB reads are passed in as values;
`random.choice` is modelled by an arbitrary index, and calls the code makes
into the pool from the forwarder loops are recorded as a trace.
-/

namespace NullGravity

/-! ## JSON value model -/

/-- JSON values as produced by `json.loads` / consumed by `json.dumps`.
Numbers are restricted to integers (the tool-call payloads the claims are
about); objects are key-ordered lists, matching Python dict insertion
order. -/
inductive Json where
  | null : Json
  | bool : Bool → Json
  | num : Int → Json
  | str : String → Json
  | arr : List Json → Json
  | obj : List (String × Json) → Json

/-- Lower-case hex digit, as used by `json.dumps` in `\uXXXX` escapes. -/
def hexChar (n : Nat) : Char := if n < 10 then Char.ofNat (48 + n) else Char.ofNat (87 + n)

/-- Escape one character the way `json.dumps` escapes string contents:
`"` and `\` and the short control escapes, `\u00XX` for the remaining
control characters, everything else verbatim. -/
def escapeChar (c : Char) : List Char :=
  if c = '"' then ['\\', '"']
  else if c = '\\' then ['\\', '\\']
  else if c = '\n' then ['\\', 'n']
  else if c = '\t' then ['\\', 't']
  else if c = '\r' then ['\\', 'r']
  else if c = '\x08' then ['\\', 'b']
  else if c = '\x0c' then ['\\', 'f']
  else if c.toNat < 32 then ['\\', 'u', '0', '0', hexChar (c.toNat / 16), hexChar (c.toNat % 16)]
  else [c]

/-- Decimal digit character. -/
def digitChar10 (d : Nat) : Char := Char.ofNat (48 + d)

/-- Big-endian decimal digits of `n`, with enough fuel to terminate
structurally (so that the kernel can evaluate it). -/
def natDigitsAux : Nat → Nat → List Char
  | 0, _ => []
  | f + 1, n => if n = 0 then [] else natDigitsAux f (n / 10) ++ [digitChar10 (n % 10)]

/-- Decimal rendering of a natural number, as `str` / `json.dumps` print it. -/
def printNat (n : Nat) : List Char :=
  if n = 0 then ['0'] else natDigitsAux n n

/-- Decimal rendering of an integer. -/
def printInt (n : Int) : List Char :=
  if n < 0 then '-' :: printNat n.natAbs else printNat n.natAbs

/-- JSON string literal: quote, escaped contents, quote. -/
def printStr (s : String) : List Char := '"' :: (s.data.map escapeChar).flatten ++ ['"']

mutual
/-- Serialise one JSON value exactly as `json.dumps` does with its default
separators `", "` and `": "`. -/
def printVal : Json → List Char
  | Json.null => ['n', 'u', 'l', 'l']
  | Json.bool true => ['t', 'r', 'u', 'e']
  | Json.bool false => ['f', 'a', 'l', 's', 'e']
  | Json.num n => printInt n
  | Json.str s => printStr s
  | Json.arr items => '[' :: (printElems items ++ [']'])
  | Json.obj kvs => '{' :: (printMembers kvs ++ ['}'])

/-- Array elements joined by `", "`. -/
def printElems : List Json → List Char
  | [] => []
  | [v] => printVal v
  | v :: rest => printVal v ++ ',' :: ' ' :: printElems rest

/-- Object members `"key": value` joined by `", "`. -/
def printMembers : List (String × Json) → List Char
  | [] => []
  | [(k, v)] => printStr k ++ ':' :: ' ' :: printVal v
  | (k, v) :: rest => printStr k ++ ':' :: ' ' :: printVal v ++ ',' :: ' ' :: printMembers rest
end

/-- JSON insignificant whitespace. -/
def isSpaceC (c : Char) : Bool := c = ' ' || c = '\t' || c = '\n' || c = '\r'

/-- Skip insignificant whitespace. -/
def skipSpaces : List Char → List Char
  | [] => []
  | c :: rest => if isSpaceC c then skipSpaces rest else c :: rest

/-- ASCII decimal digit test. -/
def isDigitC (c : Char) : Bool := 48 ≤ c.toNat && c.toNat ≤ 57

/-- Value of an ASCII decimal digit. -/
def digitVal (c : Char) : Nat := c.toNat - 48

/-- Value of a lower-case hex digit. -/
def parseHexDigit (c : Char) : Option Nat :=
  if 48 ≤ c.toNat && c.toNat ≤ 57 then some (c.toNat - 48)
  else if 97 ≤ c.toNat && c.toNat ≤ 102 then some (c.toNat - 87)
  else none

/-- Inverse of the short escapes of `escapeChar`. -/
def unescapeShort (c : Char) : Option Char :=
  if c = '"' then some '"'
  else if c = '\\' then some '\\'
  else if c = 'n' then some '\n'
  else if c = 't' then some '\t'
  else if c = 'r' then some '\r'
  else if c = 'b' then some '\x08'
  else if c = 'f' then some '\x0c'
  else none

/-- Parse the body of a JSON string literal (after the opening quote) up to
and including the closing quote, returning the decoded characters and the
remaining input. -/
def parseStringBody : List Char → Option (List Char × List Char)
  | [] => none
  | c :: rest =>
    if c = '"' then some ([], rest)
    else if c = '\\' then
      match rest with
      | [] => none
      | e :: rest2 =>
        if e = 'u' then
          match rest2 with
          | h1 :: h2 :: h3 :: h4 :: rest3 =>
            match parseHexDigit h1, parseHexDigit h2, parseHexDigit h3, parseHexDigit h4 with
            | some a, some b, some c2, some d =>
              (parseStringBody rest3).map (fun p => (Char.ofNat (a * 4096 + b * 256 + c2 * 16 + d) :: p.1, p.2))
            | _, _, _, _ => none
          | _ => none
        else
          match unescapeShort e with
          | some c2 => (parseStringBody rest2).map (fun p => (c2 :: p.1, p.2))
          | none => none
    else (parseStringBody rest).map (fun p => (c :: p.1, p.2))

/-- Parse a run of decimal digits into an accumulator. -/
def parseNatAcc : List Char → Nat → Nat × List Char
  | [], acc => (acc, [])
  | c :: rest, acc => if isDigitC c then parseNatAcc rest (acc * 10 + digitVal c) else (acc, c :: rest)

mutual
/-- Parse one JSON value (fuelled recursive-descent parser modelling
`json.loads` on the value subset of the model). -/
def parseVal : Nat → List Char → Option (Json × List Char)
  | 0, _ => none
  | f + 1, cs =>
    match skipSpaces cs with
    | [] => none
    | c :: rest =>
      if c = '{' then parseMembers f rest []
      else if c = '[' then parseElems f rest []
      else if c = '"' then (parseStringBody rest).map (fun p => (Json.str (String.mk p.1), p.2))
      else if c = '-' then
        match rest with
        | d :: _ =>
          if isDigitC d then
            let p := parseNatAcc rest 0
            some (Json.num (-(p.1 : Int)), p.2)
          else none
        | [] => none
      else if isDigitC c then
        let p := parseNatAcc (c :: rest) 0
        some (Json.num (p.1 : Int), p.2)
      else
        match c :: rest with
        | 't' :: 'r' :: 'u' :: 'e' :: r => some (Json.bool true, r)
        | 'f' :: 'a' :: 'l' :: 's' :: 'e' :: r => some (Json.bool false, r)
        | 'n' :: 'u' :: 'l' :: 'l' :: r => some (Json.null, r)
        | _ => none

/-- Parse the members of a JSON object after the opening brace. -/
def parseMembers : Nat → List Char → List (String × Json) → Option (Json × List Char)
  | 0, _, _ => none
  | f + 1, cs, acc =>
    match skipSpaces cs with
    | [] => none
    | c :: rest =>
      if c = '}' then some (Json.obj acc.reverse, rest)
      else if c = '"' then
        match parseStringBody rest with
        | none => none
        | some (kchars, rest2) =>
          match skipSpaces rest2 with
          | ':' :: rest3 =>
            match parseVal f rest3 with
            | none => none
            | some (v, rest4) =>
              match skipSpaces rest4 with
              | ',' :: rest5 => parseMembers f rest5 ((String.mk kchars, v) :: acc)
              | '}' :: rest5 => some (Json.obj ((String.mk kchars, v) :: acc).reverse, rest5)
              | _ => none
          | _ => none
      else none

/-- Parse the elements of a JSON array after the opening bracket. -/
def parseElems : Nat → List Char → List Json → Option (Json × List Char)
  | 0, _, _ => none
  | f + 1, cs, acc =>
    match skipSpaces cs with
    | [] => none
    | c :: rest =>
      if c = ']' then some (Json.arr acc.reverse, rest)
      else
        match parseVal f (c :: rest) with
        | none => none
        | some (v, rest2) =>
          match skipSpaces rest2 with
          | ',' :: rest3 => parseElems f rest3 (v :: acc)
          | ']' :: rest3 => some (Json.arr (v :: acc).reverse, rest3)
          | _ => none
end

mutual
/-- Fuel needed to parse one printed value. -/
def sizeV : Json → Nat
  | Json.arr items => 1 + sizeL items
  | Json.obj kvs => 1 + sizeM kvs
  | _ => 1

/-- Fuel needed to parse a printed element list. -/
def sizeL : List Json → Nat
  | [] => 1
  | v :: rest => 1 + max (sizeV v) (sizeL rest)

/-- Fuel needed to parse a printed member list. -/
def sizeM : List (String × Json) → Nat
  | [] => 1
  | (_, v) :: rest => 1 + max (sizeV v) (sizeM rest)
end

/-- Model of `json.dumps` on the value subset. -/
def jsonDumps (j : Json) : String := String.mk (printVal j)

/-- Model of `json.loads`: parse a whole string, rejecting trailing data. -/
def jsonLoads (s : String) : Option Json :=
  match parseVal (s.data.length + 1) s.data with
  | some (j, []) => some j
  | _ => none

/-! ## Schema filter (`_clean_schema_for_gemini`, services/openai_compat.py) -/

/-- The allowlist `ALLOWED_KEYS` of `_clean_schema_for_gemini`. -/
def ALLOWED_KEYS : List String :=
  ["type", "description", "enum", "items", "properties", "required", "nullable", "format"]

mutual
/-- `_clean_schema_for_gemini` on a schema dict: keep only allowlisted keys,
recursing into dict values and, inside list values, into dict items. -/
def clean_schema_for_gemini : List (String × Json) → List (String × Json)
  | [] => []
  | (k, v) :: rest =>
      if k ∈ ALLOWED_KEYS then (k, cleanSchemaValue v) :: clean_schema_for_gemini rest
      else clean_schema_for_gemini rest

/-- The per-value dispatch of `_clean_schema_for_gemini`: dicts are cleaned
recursively, lists have their dict items cleaned, everything else is kept. -/
def cleanSchemaValue : Json → Json
  | Json.obj kvs => Json.obj (clean_schema_for_gemini kvs)
  | Json.arr items => Json.arr (cleanSchemaList items)
  | v => v

/-- The list comprehension of `_clean_schema_for_gemini`: clean dict items,
keep other items (including nested lists) unchanged. -/
def cleanSchemaList : List Json → List Json
  | [] => []
  | Json.obj kvs :: rest => Json.obj (clean_schema_for_gemini kvs) :: cleanSchemaList rest
  | v :: rest => v :: cleanSchemaList rest
end

/-! ## Gemini response parts and OpenAI message construction
(`_extract_gemini_parts`, `_handle_non_stream`, services/openai_compat.py) -/

/-- An upstream `functionCall` part payload; `name` and `args` are read with
`fc.get("name", "")` and `fc.get("args", {})`. -/
structure FunctionCallPart where
  name : Option String
  args : Option Json

/-- One element of `candidates[0].content.parts`; `text` is present when the
part dict has a `"text"` key, `functionCall` when it has a `"functionCall"`
key (`"text"` wins when both are present, as in the source's `if`/`elif`). -/
structure ResponsePart where
  text : Option String
  functionCall : Option FunctionCallPart

/-- A raw tool call `{"name": ..., "args": ...}` as collected by
`_extract_gemini_parts`. -/
structure RawToolCall where
  name : String
  args : Json

/-- `_extract_gemini_parts`: join the text parts, collect the functionCall
parts in order. -/
def extract_gemini_parts : List ResponsePart → String × List RawToolCall
  | [] => ("", [])
  | p :: rest =>
    let (t, tcs) := extract_gemini_parts rest
    match p.text with
    | some s => (s ++ t, tcs)
    | none =>
      match p.functionCall with
      | some fc => (t, ⟨fc.name.getD "", fc.args.getD (Json.obj [])⟩ :: tcs)
      | none => (t, tcs)

/-- One entry of `message["tool_calls"]` in the non-streaming OpenAI
response. -/
structure OpenAIToolCall where
  id : String
  type : String
  function_name : String
  arguments : String

/-- `choices[0].message` of the non-streaming OpenAI response.  An empty
`tool_calls` list models the key being absent. -/
structure OpenAIMessage where
  role : String
  content : Option String
  tool_calls : List OpenAIToolCall

/-- The response-building tail of `_handle_non_stream` (services/
openai_compat.py, lines 504-539): extract parts, set `content` to the text
or JSON null (`text or None`), and when tool calls are present set
`finish_reason` to `"tool_calls"` and serialise each `args` with
`json.dumps`.  `ids` supplies the random `call_…` identifiers. -/
def build_openai_message (parts : List ResponsePart) (ids : Nat → String) :
    OpenAIMessage × String :=
  let e := extract_gemini_parts parts
  let text := e.1
  let tcs := e.2
  let finish_reason := if tcs.isEmpty then "stop" else "tool_calls"
  let tool_calls :=
    if tcs.isEmpty then []
    else (tcs.enum).map (fun p => OpenAIToolCall.mk (ids p.1) "function" p.2.name (jsonDumps p.2.args))
  ({ role := "assistant"
     content := if text = "" then none else some text
     tool_calls := tool_calls }, finish_reason)

/-! ## Generation-config normalisation
(`chat_completions` and `anthropic_messages`, services/openai_compat.py) -/

/-- A Python value as read from the request body, for the fields the
normalisation touches (absent/None, an integer, or a string). -/
inductive PyVal where
  | none : PyVal
  | int : Int → PyVal
  | str : String → PyVal
deriving DecidableEq

/-- Python truthiness for the `or` between `max_tokens` and
`max_completion_tokens`. -/
def pyTruthy : PyVal → Bool
  | PyVal.none => false
  | PyVal.int n => n != 0
  | PyVal.str s => !(s = "")

/-- Python `int(...)` on a decimal string (sign and digits; anything else
raises `ValueError`). -/
def pyStrToInt (s : String) : Option Int :=
  match s.data with
  | '-' :: ds =>
      if ds ≠ [] ∧ ds.all isDigitC then some (-((parseNatAcc ds 0).1 : Int)) else none
  | ds =>
      if ds ≠ [] ∧ ds.all isDigitC then some ((parseNatAcc ds 0).1 : Int) else none

/-- Python `int(...)` on a body value: identity on ints, decimal parse on
strings, error otherwise. -/
def pyToInt : PyVal → Option Int
  | PyVal.none => none
  | PyVal.int n => some n
  | PyVal.str s => pyStrToInt s

/-- The `max_tokens` computation of `chat_completions` (lines 241-250):
`body.get("max_tokens") or body.get("max_completion_tokens")`, the
`"[undefined]"` sentinel becomes None, otherwise `int(...)` clamped with
`min(..., 64000)`, conversion errors become None.  The result is what is
put (when not None) into `generationConfig.maxOutputTokens`. -/
def openai_max_tokens (mt mct : PyVal) : Option Int :=
  let m := if pyTruthy mt then mt else mct
  if m = PyVal.str "[undefined]" then none
  else
    match m with
    | PyVal.none => none
    | v =>
      match pyToInt v with
      | some n => some (min n 64000)
      | none => none

/-- The `max_tokens` computation of `anthropic_messages` (lines 743-753):
`body.get("max_tokens", 8192)`, the `"[undefined]"` sentinel becomes 8192,
otherwise `int(...)` clamped with `min(..., 64000)`, conversion errors
become 8192.  The argument is `none` when the body has no `max_tokens`
key. -/
def anthropic_max_tokens (mt : Option PyVal) : Int :=
  let m := mt.getD (PyVal.int 8192)
  if m = PyVal.str "[undefined]" then 8192
  else
    match pyToInt m with
    | some n => min n 64000
    | none => 8192

/-- `generationConfig.maxOutputTokens` as sent upstream by
`chat_completions`: present exactly when the computed value is not None. -/
def openai_generation_config_max (mt mct : PyVal) : Option Int :=
  openai_max_tokens mt mct

/-- `generationConfig.maxOutputTokens` as sent upstream by
`anthropic_messages`: always present (the computation always yields an
integer). -/
def anthropic_generation_config_max (mt : Option PyVal) : Option Int :=
  some (anthropic_max_tokens mt)

/-- The `temperature` normalisation shared by both endpoints
(lines 237-239 and 739-741): the `"[undefined]"` sentinel becomes None, and
the key is set in `generationConfig` only when the value is not None. -/
def temperature_setting (t : PyVal) : Option PyVal :=
  if t = PyVal.str "[undefined]" then none
  else
    match t with
    | PyVal.none => none
    | v => some v

/-! ## Credential refresh (`_refresh_credential`, services/auto_refresh.py) -/

/-- The stored fields of an `OAuthCredential` row that `_refresh_credential`
can modify. -/
structure CredentialState where
  access_token : Option String
  token_expires_at : Option Nat
  updated_at : Option Nat
  last_sync_at : Option Nat
deriving DecidableEq

/-- The token-endpoint response as read by `_refresh_credential`:
HTTP status, `error` code (empty when absent), and on success
`access_token` / `expires_in`. -/
structure TokenResponse where
  status : Nat
  error_code : String
  access_token : Option String
  expires_in : Option Nat

/-- Result of one `_refresh_credential` call: the credential row as stored
afterwards, and the `success` flag of the returned dict. -/
structure RefreshOutcome where
  cred : CredentialState
  success : Bool
deriving DecidableEq

/-- `_refresh_credential` (services/auto_refresh.py, lines 41-108), with the
DB read and HTTP call abstracted into arguments.  On a non-200 response the
credential is frozen (token and expiry nulled) exactly when the OAuth error
code is `invalid_grant` or `unauthorized_client`; otherwise nothing is
committed.  On HTTP 200 the token, expiry (`now + expires_in` when
`expires_in` is truthy), `updated_at` and `last_sync_at` are stored. -/
def refresh_credential (hasRefreshToken : Bool) (cred : CredentialState)
    (res : TokenResponse) (now : Nat) : RefreshOutcome :=
  if !hasRefreshToken then ⟨cred, false⟩
  else if res.status ≠ 200 then
    if res.error_code = "invalid_grant" ∨ res.error_code = "unauthorized_client" then
      ⟨{ cred with access_token := none, token_expires_at := none }, false⟩
    else ⟨cred, false⟩
  else
    ⟨{ access_token := res.access_token
       token_expires_at :=
         match res.expires_in with
         | some e => if e ≠ 0 then some (now + e) else none
         | none => none
       updated_at := some now
       last_sync_at := some now }, true⟩

/-! ## Quota aggregation (`sync_account_info`, services/sync.py) -/

/-- One quota bucket as stored in `quota_data`; only `remainingFraction` is
read by the aggregation.  Fractions are modelled as rationals. -/
structure QuotaBucket where
  remainingFraction : Option ℚ

/-- Python `int(...)` on a rational: truncation toward zero. -/
def pyIntTrunc (q : ℚ) : Int := Int.tdiv q.num q.den

/-- The `min_fraction` / `has_fraction` fold of `sync_account_info`
(services/sync.py, lines 493-503), starting from `(1.0, False)`. -/
def quotaFold (buckets : List QuotaBucket) (init : ℚ × Bool) : ℚ × Bool :=
  buckets.foldl
    (fun p b =>
      match b.remainingFraction with
      | some r => (if r < p.1 then r else p.1, true)
      | none => p)
    init

/-- The `quota_percent` update of `sync_account_info`: when some bucket has
a `remainingFraction`, store `int((1.0 - min_fraction) * 100)`, otherwise
leave the previous value. -/
def compute_quota_percent (prev : Option Int) (buckets : List QuotaBucket) : Option Int :=
  let p := quotaFold buckets (1, false)
  if p.2 then some (pyIntTrunc ((1 - p.1) * 100)) else prev

/-- The `target_quota_data` selection of `sync_account_info` (lines
481-491): the first GENERIC_CLI (gemini_cli) credential's buckets when that
credential exists and its `quota_data` is truthy, else the first NATIVE
(antigravity) credential's, else nothing.  A credential's missing/None
`quota_data` is modelled as `[]`. -/
def select_quota_data (gemini_creds antigravity_creds : List (List QuotaBucket)) :
    Option (List QuotaBucket) :=
  if !gemini_creds.isEmpty && !(gemini_creds.headD []).isEmpty then
    some (gemini_creds.headD [])
  else if !antigravity_creds.isEmpty && !(antigravity_creds.headD []).isEmpty then
    some (antigravity_creds.headD [])
  else none

/-! ## Account pool (`AccountPool`, services/cloudcode_proxy.py) -/

/-- `MAX_BINDINGS` of `AccountPool`. -/
def MAX_BINDINGS : Nat := 1000

/-- `BINDING_TTL` of `AccountPool` (30 minutes, in seconds). -/
def BINDING_TTL : Nat := 1800

/-- One OAuth credential row, as read by `AccountPool._read_account`. -/
structure Credential where
  client_type : String
  access_token : Option String
  project_id : Option String

/-- One account row with its credentials, as loaded from the store. -/
structure DBAccount where
  id : String
  email : String
  credentials : List Credential

/-- The dict returned by `AccountPool._read_account`. -/
structure AccountView where
  id : String
  email : String
  access_token : String
  project_id : Option String
deriving DecidableEq

/-- Python truthiness of an optional string (`c.access_token`). -/
def tokenTruthy : Option String → Bool
  | some s => !(s = "")
  | none => false

/-- `AccountPool._read_account`: load the account, take the first
`antigravity` credential with a truthy access token, or return None. -/
def read_account (db : List DBAccount) (aid : String) : Option AccountView :=
  match db.find? (fun a => a.id = aid) with
  | none => none
  | some a =>
    match a.credentials.find? (fun c => c.client_type = "antigravity" && tokenTruthy c.access_token) with
    | none => none
    | some c => some ⟨a.id, a.email, c.access_token.getD "", c.project_id⟩

/-- The in-memory rotation state of `AccountPool`.  The two dicts are
insertion-ordered association lists, as Python dicts are. -/
structure PoolState where
  account_ids : List String
  current_index : Nat
  exhausted : List String
  rate_limited : List (String × Nat)
  session_bindings : List (String × String)
  binding_timestamps : List (String × Nat)
deriving DecidableEq

/-- Dict lookup on an association list. -/
def alookup {β : Type} (m : List (String × β)) (k : String) : Option β :=
  (m.find? (fun p => p.1 = k)).map Prod.snd

/-- Dict assignment `m[k] = v`: update the key in place when it exists
(preserving its position, as Python dicts do), else append. -/
def aset {β : Type} : List (String × β) → String → β → List (String × β)
  | [], k, v => [(k, v)]
  | p :: rest, k, v => if p.1 = k then (k, v) :: rest else p :: aset rest k v

/-- Dict `pop(k, None)`. -/
def aerase {β : Type} (m : List (String × β)) (k : String) : List (String × β) :=
  m.filter (fun p => !(p.1 = k))

/-- `AccountPool._is_available`: not exhausted, and any rate-limit mark has
expired. -/
def is_available (st : PoolState) (now : Nat) (aid : String) : Bool :=
  if st.exhausted.contains aid then false
  else
    match alookup st.rate_limited aid with
    | some untl => !(untl > now)
    | none => true

/-- Stable insertion into a key-sorted list (before the first strictly
larger key, after equal keys were... — here: `x` goes before the first
element whose key is strictly larger, keeping equal-keyed elements in their
original order). -/
def insertByKey {α : Type} (key : α → Nat) (x : α) : List α → List α
  | [] => [x]
  | y :: ys => if key x ≤ key y then x :: y :: ys else y :: insertByKey key x ys

/-- Stable ascending sort by a natural-number key.  This is extensionally
the Python `sorted(..., key=...)` (Timsort is also stable), in a
structurally recursive form the kernel can evaluate. -/
def sortByKey {α : Type} (key : α → Nat) : List α → List α
  | [] => []
  | x :: xs => insertByKey key x (sortByKey key xs)

/-- `AccountPool._clean_stale_bindings`: drop bindings idle beyond
`BINDING_TTL`, then, when still over `MAX_BINDINGS`, drop the
oldest-access-time bindings down to the bound. -/
def clean_stale_bindings (st : PoolState) (now : Nat) : PoolState :=
  let expired := ((st.binding_timestamps.filter (fun p => now - p.2 > BINDING_TTL)).map Prod.fst)
  let sb := st.session_bindings.filter (fun p => !(expired.contains p.1))
  let bt := st.binding_timestamps.filter (fun p => !(expired.contains p.1))
  if sb.length > MAX_BINDINGS then
    let sorted_keys := (sortByKey Prod.snd bt).map Prod.fst
    let to_remove := sorted_keys.take (sb.length - MAX_BINDINGS)
    { st with
      session_bindings := sb.filter (fun p => !(to_remove.contains p.1))
      binding_timestamps := bt.filter (fun p => !(to_remove.contains p.1)) }
  else
    { st with session_bindings := sb, binding_timestamps := bt }

/-- Number of sessions bound to `aid` (the `Counter` of
`_assign_least_loaded`). -/
def bindingCount (st : PoolState) (aid : String) : Nat :=
  (st.session_bindings.filter (fun p => p.2 = aid)).length

/-- `AccountPool._assign_least_loaded`: among non-exhausted accounts (all
accounts when every one is exhausted), pick the one with the fewest bound
sessions, breaking ties by list order (stable sort then first element). -/
def assign_least_loaded (st : PoolState) : String :=
  let candidates := st.account_ids.filter (fun aid => !(st.exhausted.contains aid))
  let candidates := if candidates.isEmpty then st.account_ids else candidates
  match sortByKey (bindingCount st) candidates with
  | c :: _ => c
  | [] => st.account_ids.headD ""

/-- `AccountPool._find_available_fallback`: first available account in list
order. -/
def find_available_fallback (st : PoolState) (now : Nat) : Option String :=
  st.account_ids.find? (fun aid => is_available st now aid)

/-- Result of one `get_current` / `rotate` call: the account (or none), the
pool state afterwards, and the clock afterwards (`cache_first` may sleep). -/
structure GetResult where
  account : Option AccountView
  state : PoolState
  now : Nat
deriving DecidableEq

/-- The tail of `get_current` at "No binding or binding invalid — assign
least loaded" (services/cloudcode_proxy.py, lines 340-360), including the
final clear-all-marks fallback. -/
def assign_new_binding (db : List DBAccount) (st : PoolState) (now : Nat) (fp : String) :
    GetResult :=
  let new_aid := assign_least_loaded st
  let st1 := { st with
    session_bindings := aset st.session_bindings fp new_aid
    binding_timestamps := aset st.binding_timestamps fp now }
  match read_account db new_aid with
  | some acc => ⟨some acc, st1, now⟩
  | none =>
    let st2 := { st1 with exhausted := [], rate_limited := [] }
    match st2.account_ids with
    | [] => ⟨none, st2, now⟩
    | first :: _ =>
      let st3 := { st2 with current_index := 0 }
      match read_account db first with
      | some acc => ⟨some acc, st3, now⟩
      | none => ⟨none, st3, now⟩

/-- The `cache_first` handling of an unavailable (or unreadable) bound
account (lines 299-328): wait out a rate limit (the sleep advances the
clock), drop the mark and retry the bound account; then, if it is
exhausted, rebind least-loaded; else fall through to
`assign_new_binding`. -/
def cache_first_recover (db : List DBAccount) (st : PoolState) (now : Nat)
    (fp bound : String) : GetResult :=
  let afterWait :=
    match alookup st.rate_limited bound with
    | some untl =>
      let now2 := if untl > now then untl else now
      let st2 := { st with rate_limited := aerase st.rate_limited bound }
      match read_account db bound with
      | some acc => some (GetResult.mk (some acc) st2 now2)
      | none => none
    | none => none
  match afterWait with
  | some r => r
  | none =>
    let st2 :=
      match alookup st.rate_limited bound with
      | some _ => { st with rate_limited := aerase st.rate_limited bound }
      | none => st
    let now2 :=
      match alookup st.rate_limited bound with
      | some untl => if untl > now then untl else now
      | none => now
    if st2.exhausted.contains bound then
      let new_aid := assign_least_loaded st2
      let st3 := { st2 with
        session_bindings := aset st2.session_bindings fp new_aid
        binding_timestamps := aset st2.binding_timestamps fp now }
      match read_account db new_aid with
      | some acc => ⟨some acc, st3, now2⟩
      | none => { assign_new_binding db st3 now fp with now := now2 }
    else { assign_new_binding db st2 now fp with now := now2 }

/-- The `balance` handling of an unavailable (or unreadable) bound account
(lines 330-338): hot-switch to the first available account without touching
the binding; fall through to `assign_new_binding` when none is readable. -/
def balance_recover (db : List DBAccount) (st : PoolState) (now : Nat) (fp : String) :
    GetResult :=
  match find_available_fallback st now with
  | some fb =>
    match read_account db fb with
    | some acc => ⟨some acc, st, now⟩
    | none => assign_new_binding db st now fp
  | none => assign_new_binding db st now fp

/-- The session-bound part of `get_current` (lines 284-360). -/
def get_current_bound (db : List DBAccount) (mode : String) (fp : String)
    (st : PoolState) (now : Nat) : GetResult :=
  match alookup st.session_bindings fp with
  | some bound =>
    if st.account_ids.contains bound then
      let st1 := { st with binding_timestamps := aset st.binding_timestamps fp now }
      let tryBound :=
        if is_available st1 now bound then
          match read_account db bound with
          | some acc => some (GetResult.mk (some acc) st1 now)
          | none => none
        else none
      match tryBound with
      | some r => r
      | none =>
        if mode = "cache_first" then cache_first_recover db st1 now fp bound
        else balance_recover db st1 now fp
    else assign_new_binding db st now fp
  | none => assign_new_binding db st now fp

/-- The `performance` / request-less part of `get_current` (lines 268-282):
pick a random available account, clearing all marks first when none is
available.  `pick` stands for the random draw. -/
def get_current_random (db : List DBAccount) (pick : Nat) (st : PoolState) (now : Nat) :
    GetResult :=
  let avail := st.account_ids.filter (is_available st now)
  let st1 := if avail.isEmpty then { st with exhausted := [], rate_limited := [] } else st
  let avail1 := if avail.isEmpty then st.account_ids else avail
  let aid := avail1.getD (pick % avail1.length) ""
  match read_account db aid with
  | some acc => ⟨some acc, st1, now⟩
  | none => ⟨none, st1, now⟩

/-- `AccountPool.get_current` (services/cloudcode_proxy.py, lines 251-360).
`fp?` is the session fingerprint of the request (`none` models
`request=None`); `pick` models `random.choice`. -/
def get_current (db : List DBAccount) (mode : String) (fp? : Option String) (pick : Nat)
    (st : PoolState) (now : Nat) : GetResult :=
  if st.account_ids.isEmpty then ⟨none, st, now⟩
  else
    let st1 := clean_stale_bindings st now
    if mode = "performance" || fp?.isNone then get_current_random db pick st1 now
    else get_current_bound db mode (fp?.getD "") st1 now

/-- `AccountPool.rotate` (lines 362-378): mark the failed account
(rate-limit for 60 s, else exhausted), advance the cursor, and return
`get_current()` (which runs with `request=None`). -/
def rotate (db : List DBAccount) (mode : String) (pick : Nat) (st : PoolState) (now : Nat)
    (failed : String) (reason : String) : GetResult :=
  let st1 :=
    if reason = "rate_limited" then
      { st with rate_limited := aset st.rate_limited failed (now + 60) }
    else
      { st with exhausted := if st.exhausted.contains failed then st.exhausted else st.exhausted ++ [failed] }
  let st2 := { st1 with current_index := (st1.current_index + 1) % max st1.account_ids.length 1 }
  get_current db mode none pick st2 now

/-- `AccountPool.refresh` (lines 93-128): reload the eligible id list, clamp
the cursor, intersect the exhausted set, keep only live rate-limit marks,
and drop bindings to vanished accounts. -/
def pool_refresh (ids : List String) (st : PoolState) (now : Nat) : PoolState :=
  let ci := if st.current_index ≥ ids.length then 0 else st.current_index
  let sb := st.session_bindings.filter (fun p => ids.contains p.2)
  { account_ids := ids
    current_index := ci
    exhausted := st.exhausted.filter (fun a => ids.contains a)
    rate_limited := st.rate_limited.filter (fun p => ids.contains p.1 && p.2 > now)
    session_bindings := sb
    binding_timestamps := st.binding_timestamps.filter (fun p => (alookup sb p.1).isSome) }

/-! ## Forwarder retry loops
(`handle_proxy_request`, services/cloudcode_proxy.py, lines 468-546;
`chat_completions` / `anthropic_messages` with `_handle_non_stream` /
`_handle_stream`, services/openai_compat.py) -/

/-- The `reason` strings passed to `pool.rotate`. -/
inductive RotateReason where
  | rate_limited : RotateReason
  | exhausted : RotateReason
  | model_not_found : RotateReason
  | capacity_exhausted : RotateReason
deriving DecidableEq

/-- A call the forwarding code makes into the pool. -/
inductive PoolCall where
  | rotateCall : String → RotateReason → PoolCall
  | refreshCall : PoolCall
deriving DecidableEq

/-- Substring prefix test over characters. -/
def isPrefixC : List Char → List Char → Bool
  | [], _ => true
  | _ :: _, [] => false
  | a :: as, b :: bs => a = b && isPrefixC as bs

/-- Python `needle in haystack` on strings. -/
def containsSub (needle : List Char) : List Char → Bool
  | [] => isPrefixC needle []
  | c :: t => isPrefixC needle (c :: t) || containsSub needle t

/-- ASCII lower-casing (the upstream bodies tested here are ASCII). -/
def lowerC (cs : List Char) : List Char :=
  cs.map (fun c => if 65 ≤ c.toNat && c.toNat ≤ 90 then Char.ofNat (c.toNat + 32) else c)

/-- ASCII upper-casing. -/
def upperC (cs : List Char) : List Char :=
  cs.map (fun c => if 97 ≤ c.toNat && c.toNat ≤ 122 then Char.ofNat (c.toNat - 32) else c)

/-- The status dispatch of `_handle_non_stream` (and, with the same
conditions and outcomes, `_handle_anthropic_non_stream`): which rotation is
performed and which status the handler's response carries.  404 rotates
with `model_not_found` and returns 404; 429 rotates `rate_limited` and
returns 429; 403 with a quota body rotates `exhausted` and returns 429; 503
with a capacity body rotates `capacity_exhausted` and returns 503; any
other non-200 status is passed through without rotation; 200 is a
success. -/
def handle_non_stream_dispatch (status : Nat) (body : List Char) :
    Option RotateReason × Nat :=
  if status = 404 then (some RotateReason.model_not_found, 404)
  else if status = 429 then (some RotateReason.rate_limited, 429)
  else if status = 403 then
    if containsSub "RESOURCE_EXHAUSTED".data body || containsSub "quota".data (lowerC body) then
      (some RotateReason.exhausted, 429)
    else (none, 403)
  else if status = 503 then
    if containsSub "CAPACITY_EXHAUSTED".data (upperC body) || containsSub "capacity".data (lowerC body) then
      (some RotateReason.capacity_exhausted, 503)
    else (none, 503)
  else if status ≠ 200 then (none, status)
  else (none, 200)

/-- The error-status dispatch of `_handle_stream` (and
`_handle_anthropic_stream`): identical classification to the non-streaming
handlers (404 / 429 / 403+quota / 503+capacity / pass-through). -/
def handle_stream_dispatch (status : Nat) (body : List Char) :
    Option RotateReason × Nat :=
  if status = 200 then (none, 200)
  else if status = 404 then (some RotateReason.model_not_found, 404)
  else if status = 429 then (some RotateReason.rate_limited, 429)
  else if status = 403 && (containsSub "RESOURCE_EXHAUSTED".data body || containsSub "quota".data (lowerC body)) then
    (some RotateReason.exhausted, 429)
  else if status = 503 && (containsSub "CAPACITY_EXHAUSTED".data (upperC body) || containsSub "capacity".data (lowerC body)) then
    (some RotateReason.capacity_exhausted, 503)
  else (none, status)

/-- The per-response dispatch of the native passthrough
`handle_proxy_request` (lines 524-536): 429 rotates `rate_limited` and
retries; 403 with a quota body rotates `exhausted` and retries; every other
status — including 404 — is returned to the client as-is. -/
def handle_proxy_dispatch (status : Nat) (body : List Char) : Option RotateReason :=
  if status = 429 then some RotateReason.rate_limited
  else if status = 403 then
    if containsSub "RESOURCE_EXHAUSTED".data body || containsSub "quota".data (lowerC body) then
      some RotateReason.exhausted
    else none
  else none

/-- Outcome of a forwarder loop: the status returned to the client, the
pool calls made (in order), and the number of upstream attempts. -/
structure ForwardResult where
  status : Nat
  calls : List PoolCall
  attempts : Nat
deriving DecidableEq

/-- The retry loop of `handle_proxy_request` (native passthrough, lines
487-546).  `accounts n` is what `pool.get_current()` returns on attempt
`n`; `upstream n` the upstream status and body.  The budget is
`max(min(pool.size, 5), 1)` attempts; a response whose dispatch rotates is
retried, anything else is returned as-is. -/
def proxy_loop (accounts : Nat → Option String) (upstream : Nat → Nat × List Char) :
    Nat → Nat → List PoolCall → ForwardResult
  | 0, attempt, calls => ⟨503, calls, attempt⟩
  | b + 1, attempt, calls =>
    match accounts attempt with
    | none => ⟨503, calls, attempt⟩
    | some aid =>
      let r := upstream attempt
      match handle_proxy_dispatch r.1 r.2 with
      | some reason => proxy_loop accounts upstream b (attempt + 1) (calls ++ [PoolCall.rotateCall aid reason])
      | none => ⟨r.1, calls, attempt + 1⟩

/-- `handle_proxy_request`'s loop entered with its budget. -/
def handle_proxy_request_sim (poolSize : Nat) (accounts : Nat → Option String)
    (upstream : Nat → Nat × List Char) : ForwardResult :=
  proxy_loop accounts upstream (max (min poolSize 5) 1) 0 []

/-- The retry loop shared by `chat_completions` and `anthropic_messages`
(services/openai_compat.py, lines 290-354 and 804-863): each attempt calls
`pool.get_current` (none → 503 immediately), forwards, and lets the handler
dispatch rotate the pool; a handler status of 401 refreshes the pool and
retries, 404/429/503 retry, anything else is returned — retries only while
`attempt < max_retries - 1`. -/
def translator_loop (accounts : Nat → Option String) (upstream : Nat → Nat × List Char)
    (maxr : Nat) : Nat → Nat → List PoolCall → ForwardResult
  | 0, attempt, calls => ⟨503, calls, attempt⟩
  | b + 1, attempt, calls =>
    match accounts attempt with
    | none => ⟨503, calls, attempt⟩
    | some aid =>
      let r := upstream attempt
      let d := handle_non_stream_dispatch r.1 r.2
      let calls1 := calls ++ (match d.1 with
        | some reason => [PoolCall.rotateCall aid reason]
        | none => [])
      if d.2 = 401 ∧ attempt + 1 < maxr then
        translator_loop accounts upstream maxr b (attempt + 1) (calls1 ++ [PoolCall.refreshCall])
      else if (d.2 = 404 ∨ d.2 = 429 ∨ d.2 = 503) ∧ attempt + 1 < maxr then
        translator_loop accounts upstream maxr b (attempt + 1) calls1
      else ⟨d.2, calls1, attempt + 1⟩

/-- The translator retry loop entered with `max_retries = min(pool.size, 5)`
over `range(max(max_retries, 1))`. -/
def translator_forward_sim (poolSize : Nat) (accounts : Nat → Option String)
    (upstream : Nat → Nat × List Char) : ForwardResult :=
  translator_loop accounts upstream (min poolSize 5) (max (min poolSize 5) 1) 0 []

/-- Three-decimal-digit session keys, pairwise distinct below 1000. -/
def mkKey (i : Nat) : String :=
  String.mk [Char.ofNat (48 + i / 100), Char.ofNat (48 + i / 10 % 10), Char.ofNat (48 + i % 10)]

def stC9 : PoolState :=
  ⟨["a1"], 0, [], [],
    (List.range 1000).map (fun i => (mkKey i, "a1")),
    (List.range 1000).map (fun i => (mkKey i, 0))⟩

def dbC9 : List DBAccount := [⟨"a1", "a@x", [⟨"antigravity", some "tok", none⟩]⟩]

/-- A one-binding pool state for the C9 witness. -/
def stC9w : PoolState := ⟨["a"], 0, [], [], [("s", "a")], [("s", 5)]⟩

/-- A character list that does not start with a digit (guard for the
number-parser lemmas). -/
def noLeadDigit : List Char → Prop
  | [] => True
  | c :: _ => isDigitC c = false

/-- The `remainingFraction` values of a bucket list. -/
def fractions (buckets : List QuotaBucket) : List ℚ :=
  buckets.filterMap (fun b => b.remainingFraction)

/-! ## Theorems: JSON round-trip -/

-- char / digit lemmas
theorem hexChar_hex (n : Nat) (h : n < 16) : parseHexDigit (hexChar n) = some n := by
  interval_cases n <;> decide

theorem parseStringBody_escape (c : Char) (tail : List Char) :
    parseStringBody (escapeChar c ++ tail) =
      (parseStringBody tail).map (fun p => (c :: p.1, p.2)) := by
  by_cases h1 : c = '"'
  · subst h1; rw [escapeChar, parseStringBody.eq_def]; simp [unescapeShort]
  by_cases h2 : c = '\\'
  · subst h2; rw [escapeChar, parseStringBody.eq_def]; simp [unescapeShort]
  by_cases h3 : c = '\n'
  · subst h3; rw [escapeChar, parseStringBody.eq_def]; simp [unescapeShort]
  by_cases h4 : c = '\t'
  · subst h4; rw [escapeChar, parseStringBody.eq_def]; simp [unescapeShort]
  by_cases h5 : c = '\r'
  · subst h5; rw [escapeChar, parseStringBody.eq_def]; simp [unescapeShort]
  by_cases h6 : c = '\x08'
  · subst h6; rw [escapeChar, parseStringBody.eq_def]; simp [unescapeShort]
  by_cases h7 : c = '\x0c'
  · subst h7; rw [escapeChar, parseStringBody.eq_def]; simp [unescapeShort]
  by_cases h8 : c.toNat < 32
  · have hq : c.toNat / 16 < 16 := by omega
    have hr : c.toNat % 16 < 16 := by omega
    rw [escapeChar]
    simp only [if_neg h1, if_neg h2, if_neg h3, if_neg h4, if_neg h5, if_neg h6,
      if_neg h7, if_pos h8]
    rw [parseStringBody.eq_def]
    simp only [List.cons_append, List.nil_append]
    norm_num [hexChar_hex _ hq, hexChar_hex _ hr,
      show parseHexDigit '0' = some 0 from by decide]
    have hc : Char.ofNat (c.toNat / 16 * 16 + c.toNat % 16) = c := by
      rw [show c.toNat / 16 * 16 + c.toNat % 16 = c.toNat by omega]
      exact Char.ofNat_toNat c
    simp [hc]
  · rw [escapeChar]
    simp only [if_neg h1, if_neg h2, if_neg h3, if_neg h4, if_neg h5, if_neg h6,
      if_neg h7, if_neg h8]
    rw [parseStringBody.eq_def]
    simp [h1, h2]

theorem parseStringBody_print (s : List Char) (rest : List Char) :
    parseStringBody ((s.map escapeChar).flatten ++ '"' :: rest) = some (s, rest) := by
  induction s with
  | nil => rw [parseStringBody.eq_def]; simp
  | cons c s ih =>
      simp only [List.map_cons, List.flatten_cons, List.append_assoc]
      rw [parseStringBody_escape, ih]
      rfl

theorem isDigitC_digitChar10 (d : Nat) (h : d < 10) : isDigitC (digitChar10 d) = true := by
  interval_cases d <;> decide

theorem digitVal_digitChar10 (d : Nat) (h : d < 10) : digitVal (digitChar10 d) = d := by
  interval_cases d <;> decide

theorem parseNatAcc_digits : ∀ (ds : List Nat) (acc : Nat) (rest : List Char),
    (∀ d ∈ ds, d < 10) → noLeadDigit rest →
    parseNatAcc (ds.map digitChar10 ++ rest) acc =
      (ds.foldl (fun a d => a * 10 + d) acc, rest)
  | [], acc, rest, _, hrest => by
      cases rest with
      | nil => simp [parseNatAcc]
      | cons c r =>
          simp only [noLeadDigit] at hrest
          simp [parseNatAcc, hrest]
  | d :: ds, acc, rest, hds, hrest => by
      have hd : d < 10 := hds d (by simp)
      simp only [List.map_cons, List.cons_append]
      rw [parseNatAcc]
      simp only [isDigitC_digitChar10 d hd, digitVal_digitChar10 d hd, if_pos]
      rw [parseNatAcc_digits ds _ rest (fun x hx => hds x (by simp [hx])) hrest]
      simp

theorem natDigitsAux_eq : ∀ (f n : Nat), n ≤ f →
    natDigitsAux f n = (Nat.digits 10 n).reverse.map digitChar10
  | 0, n, h => by
      have hn : n = 0 := Nat.le_zero.mp h
      subst hn; simp [natDigitsAux]
  | f + 1, n, h => by
      by_cases hn : n = 0
      · subst hn; simp [natDigitsAux]
      · rw [natDigitsAux, if_neg hn]
        rw [natDigitsAux_eq f (n / 10) (by omega)]
        rw [Nat.digits_def' (by norm_num : (1 : Nat) < 10) (Nat.pos_of_ne_zero hn)]
        simp

theorem foldl_reverse_digits : ∀ (l : List Nat) (acc : Nat),
    l.reverse.foldl (fun a d => a * 10 + d) acc = acc * 10 ^ l.length + Nat.ofDigits 10 l
  | [], acc => by simp [Nat.ofDigits]
  | d :: t, acc => by
      simp only [List.reverse_cons, List.foldl_append, List.foldl_cons, List.foldl_nil,
        foldl_reverse_digits t acc, Nat.ofDigits_cons, List.length_cons]
      ring

theorem parseNatAcc_printNat (n : Nat) (rest : List Char) (h : noLeadDigit rest) :
    parseNatAcc (printNat n ++ rest) 0 = (n, rest) := by
  by_cases hn : n = 0
  · subst hn
    have := parseNatAcc_digits [0] 0 rest (by simp) h
    simpa [printNat] using this
  · rw [printNat, if_neg hn, natDigitsAux_eq n n le_rfl]
    rw [parseNatAcc_digits _ 0 rest
      (fun d hd => Nat.digits_lt_base (by norm_num) (by simpa using hd)) h]
    rw [foldl_reverse_digits, Nat.ofDigits_digits]
    simp

theorem skipSpaces_cons (c : Char) (rest : List Char) (h : isSpaceC c = false) :
    skipSpaces (c :: rest) = c :: rest := by
  rw [skipSpaces]; simp [h]

theorem parseVal_skip : ∀ (f : Nat) (cs : List Char), parseVal f (' ' :: cs) = parseVal f cs
  | 0, cs => rfl
  | f + 1, cs => by
      have hs : skipSpaces (' ' :: cs) = skipSpaces cs := by
        rw [skipSpaces]; norm_num [isSpaceC]
      rw [parseVal, parseVal, hs]

theorem parseMembers_skip (f : Nat) (cs : List Char) (acc : List (String × Json)) :
    parseMembers f (' ' :: cs) acc = parseMembers f cs acc := by
  cases f with
  | zero => rfl
  | succ f =>
      have hs : skipSpaces (' ' :: cs) = skipSpaces cs := by
        rw [skipSpaces]; norm_num [isSpaceC]
      rw [parseMembers, parseMembers, hs]

theorem parseElems_skip (f : Nat) (cs : List Char) (acc : List Json) :
    parseElems f (' ' :: cs) acc = parseElems f cs acc := by
  cases f with
  | zero => rfl
  | succ f =>
      have hs : skipSpaces (' ' :: cs) = skipSpaces cs := by
        rw [skipSpaces]; norm_num [isSpaceC]
      rw [parseElems, parseElems, hs]

theorem digitChar10_head (d : Nat) (h : d < 10) :
    isSpaceC (digitChar10 d) = false ∧ ¬(digitChar10 d = '{') ∧ ¬(digitChar10 d = '[') ∧
    ¬(digitChar10 d = '"') ∧ ¬(digitChar10 d = '-') ∧ ¬(digitChar10 d = ']') ∧
    ¬(digitChar10 d = '}') ∧ ¬(digitChar10 d = ',') := by
  interval_cases d <;> decide

theorem printNat_decomp (m : Nat) : ∃ d ds, d < 10 ∧ (∀ x ∈ ds, x < 10) ∧
    printNat m = (d :: ds).map digitChar10 := by
  by_cases hm : m = 0
  · subst hm; exact ⟨0, [], by norm_num, by simp, rfl⟩
  · rw [printNat, if_neg hm, natDigitsAux_eq m m le_rfl]
    have hne : Nat.digits 10 m ≠ [] := Nat.digits_ne_nil_iff_ne_zero.mpr hm
    obtain ⟨d, ds, hrev⟩ : ∃ d ds, (Nat.digits 10 m).reverse = d :: ds := by
      cases hrev : (Nat.digits 10 m).reverse with
      | nil =>
          exact absurd (by simpa using congrArg List.reverse hrev) hne
      | cons a l => exact ⟨a, l, rfl⟩
    refine ⟨d, ds, ?_, ?_, by rw [hrev]⟩
    · have hmem : d ∈ (Nat.digits 10 m).reverse := by rw [hrev]; simp
      exact Nat.digits_lt_base (by norm_num) (by simpa using hmem)
    · intro x hx
      have hmem : x ∈ (Nat.digits 10 m).reverse := by rw [hrev]; simp [hx]
      exact Nat.digits_lt_base (by norm_num) (by simpa using hmem)

theorem sizeV_pos (j : Json) : 1 ≤ sizeV j := by
  cases j <;> simp [sizeV]

theorem sizeM_pos (ms : List (String × Json)) : 1 ≤ sizeM ms := by
  cases ms with
  | nil => simp [sizeM]
  | cons m t => obtain ⟨k, v⟩ := m; simp [sizeM]

theorem sizeL_pos (l : List Json) : 1 ≤ sizeL l := by
  cases l with
  | nil => simp [sizeL]
  | cons v t => simp [sizeL]

theorem noLeadDigit_cons (c : Char) (r : List Char) (h : isDigitC c = false) :
    noLeadDigit (c :: r) := h

theorem printVal_head : ∀ j : Json, ∃ c cs, printVal j = c :: cs ∧ isSpaceC c = false ∧
    ¬(c = ']') ∧ ¬(c = '}') ∧ ¬(c = ',')
  | Json.null => ⟨'n', _, rfl, by decide, by decide, by decide, by decide⟩
  | Json.bool true => ⟨'t', _, rfl, by decide, by decide, by decide, by decide⟩
  | Json.bool false => ⟨'f', _, rfl, by decide, by decide, by decide, by decide⟩
  | Json.str s => ⟨'"', _, rfl, by decide, by decide, by decide, by decide⟩
  | Json.arr items => ⟨'[', _, rfl, by decide, by decide, by decide, by decide⟩
  | Json.obj kvs => ⟨'{', _, rfl, by decide, by decide, by decide, by decide⟩
  | Json.num n => by
      obtain ⟨d, ds, hd, hds, hpn⟩ := printNat_decomp n.natAbs
      obtain ⟨hsp, _, _, _, _, hbr, hbc, hcm⟩ := digitChar10_head d hd
      by_cases hneg : n < 0
      · refine ⟨'-', printNat n.natAbs, ?_, by decide, by decide, by decide, by decide⟩
        simp [printVal, printInt, if_pos hneg]
      · refine ⟨digitChar10 d, ds.map digitChar10, ?_, hsp, hbr, hbc, hcm⟩
        simp [printVal, printInt, if_neg hneg, hpn]

mutual
theorem parseVal_print : ∀ (f : Nat) (j : Json) (rest : List Char),
    sizeV j ≤ f → noLeadDigit rest → parseVal f (printVal j ++ rest) = some (j, rest)
  | 0, j, _, hf, _ => absurd hf (by have := sizeV_pos j; omega)
  | f + 1, Json.null, rest, _, _ => by
      simp only [printVal, List.cons_append, List.nil_append]
      rw [parseVal, skipSpaces_cons _ _ (by decide)]
      simp
      decide
  | f + 1, Json.bool true, rest, _, _ => by
      simp only [printVal, List.cons_append, List.nil_append]
      rw [parseVal, skipSpaces_cons _ _ (by decide)]
      simp
      decide
  | f + 1, Json.bool false, rest, _, _ => by
      simp only [printVal, List.cons_append, List.nil_append]
      rw [parseVal, skipSpaces_cons _ _ (by decide)]
      simp
      decide
  | f + 1, Json.str s, rest, _, _ => by
      simp only [printVal, printStr, List.cons_append, List.append_assoc, List.nil_append]
      rw [parseVal, skipSpaces_cons _ _ (by decide)]
      simp only [if_neg (by decide : ¬(('"' : Char) = '{')),
        if_neg (by decide : ¬(('"' : Char) = '[')), if_pos rfl]
      rw [parseStringBody_print]
      rfl
  | f + 1, Json.num n, rest, hf, hr => by
      obtain ⟨d, ds, hd, hds, hpn⟩ := printNat_decomp n.natAbs
      have hparse := parseNatAcc_printNat n.natAbs rest hr
      obtain ⟨hsp, hbrace, hbrack, hquot, hdash, _, _, _⟩ := digitChar10_head d hd
      by_cases hneg : n < 0
      · simp only [printVal, printInt, if_pos hneg, List.cons_append]
        rw [parseVal, skipSpaces_cons _ _ (by decide)]
        simp only [if_neg (by decide : ¬(('-' : Char) = '{')),
          if_neg (by decide : ¬(('-' : Char) = '[')),
          if_neg (by decide : ¬(('-' : Char) = '"')), if_pos rfl]
        rw [hpn] at hparse ⊢
        simp only [List.map_cons, List.cons_append] at hparse ⊢
        simp only [isDigitC_digitChar10 d hd, if_pos, hparse]
        simp only [show -(n.natAbs : Int) = n from by omega]
      · simp only [printVal, printInt, if_neg hneg]
        rw [hpn] at hparse ⊢
        simp only [List.map_cons, List.cons_append] at hparse ⊢
        rw [parseVal, skipSpaces_cons _ _ hsp]
        simp only [if_neg hbrace, if_neg hbrack, if_neg hquot, if_neg hdash,
          isDigitC_digitChar10 d hd, if_pos, hparse]
        simp only [show ((n.natAbs : Int)) = n from by omega]
  | f + 1, Json.arr items, rest, hf, hr => by
      simp only [printVal, List.cons_append, List.append_assoc, List.nil_append]
      rw [parseVal, skipSpaces_cons _ _ (by decide)]
      simp only [if_neg (by decide : ¬(('[' : Char) = '{')), if_pos rfl]
      rw [parseElems_print f items [] rest (by rw [sizeV] at hf; omega)]
      simp
  | f + 1, Json.obj kvs, rest, hf, hr => by
      simp only [printVal, List.cons_append, List.append_assoc, List.nil_append]
      rw [parseVal, skipSpaces_cons _ _ (by decide)]
      simp only [if_pos rfl]
      rw [parseMembers_print f kvs [] rest (by rw [sizeV] at hf; omega)]
      simp

theorem parseMembers_print : ∀ (f : Nat) (ms : List (String × Json))
    (acc : List (String × Json)) (rest : List Char), sizeM ms ≤ f →
    parseMembers f (printMembers ms ++ '}' :: rest) acc =
      some (Json.obj (acc.reverse ++ ms), rest)
  | 0, ms, _, _, hf => absurd hf (by have := sizeM_pos ms; omega)
  | f + 1, [], acc, rest, _ => by
      simp only [printMembers, List.nil_append]
      rw [parseMembers, skipSpaces_cons _ _ (by decide)]
      simp
  | f + 1, [(k, v)], acc, rest, hf => by
      simp only [printMembers, printStr, List.cons_append, List.append_assoc, List.nil_append]
      rw [parseMembers, skipSpaces_cons _ _ (by decide)]
      simp only [if_neg (by decide : ¬(('"' : Char) = '}')), if_pos rfl]
      rw [parseStringBody_print]
      simp only [skipSpaces_cons _ _ (by decide : isSpaceC ':' = false)]
      rw [parseVal_skip]
      rw [parseVal_print f v ('}' :: rest)
        (by rw [sizeM, sizeM] at hf; omega) (noLeadDigit_cons _ _ (by decide))]
      simp only [skipSpaces_cons _ _ (by decide : isSpaceC '}' = false)]
      simp
  | f + 1, (k, v) :: m2 :: tail, acc, rest, hf => by
      simp only [printMembers, printStr, List.cons_append, List.append_assoc, List.nil_append]
      rw [parseMembers, skipSpaces_cons _ _ (by decide)]
      simp only [if_neg (by decide : ¬(('"' : Char) = '}')), if_pos rfl]
      rw [parseStringBody_print]
      simp only [skipSpaces_cons _ _ (by decide : isSpaceC ':' = false)]
      rw [parseVal_skip]
      rw [parseVal_print f v (',' :: ' ' :: (printMembers (m2 :: tail) ++ '}' :: rest))
        (by rw [sizeM] at hf; omega) (noLeadDigit_cons _ _ (by decide))]
      simp only [skipSpaces_cons _ _ (by decide : isSpaceC ',' = false)]
      rw [parseMembers_skip]
      rw [parseMembers_print f (m2 :: tail) ((k, v) :: acc) rest
        (by rw [sizeM] at hf; omega)]
      simp

theorem parseElems_print : ∀ (f : Nat) (l : List Json) (acc : List Json) (rest : List Char),
    sizeL l ≤ f →
    parseElems f (printElems l ++ ']' :: rest) acc = some (Json.arr (acc.reverse ++ l), rest)
  | 0, l, _, _, hf => absurd hf (by have := sizeL_pos l; omega)
  | f + 1, [], acc, rest, _ => by
      simp only [printElems, List.nil_append]
      rw [parseElems, skipSpaces_cons _ _ (by decide)]
      simp
  | f + 1, [v], acc, rest, hf => by
      obtain ⟨c, cs, hcs, hsp, hbrackr, hbracer, hcomma⟩ := printVal_head v
      simp only [printElems, hcs, List.cons_append, List.append_assoc, List.nil_append]
      rw [parseElems, skipSpaces_cons _ _ hsp]
      simp only [if_neg hbrackr]
      rw [show c :: (cs ++ ']' :: rest) = printVal v ++ ']' :: rest by rw [hcs]; simp]
      rw [parseVal_print f v (']' :: rest) (by rw [sizeL, sizeL] at hf; omega)
        (noLeadDigit_cons _ _ (by decide))]
      simp only [skipSpaces_cons _ _ (by decide : isSpaceC ']' = false)]
      simp
  | f + 1, v :: v2 :: tail, acc, rest, hf => by
      obtain ⟨c, cs, hcs, hsp, hbrackr, hbracer, hcomma⟩ := printVal_head v
      simp only [printElems, hcs, List.cons_append, List.append_assoc, List.nil_append]
      rw [parseElems, skipSpaces_cons _ _ hsp]
      simp only [if_neg hbrackr]
      rw [show c :: (cs ++ ',' :: ' ' :: (printElems (v2 :: tail) ++ ']' :: rest)) =
        printVal v ++ ',' :: ' ' :: (printElems (v2 :: tail) ++ ']' :: rest) by rw [hcs]; simp]
      rw [parseVal_print f v (',' :: ' ' :: (printElems (v2 :: tail) ++ ']' :: rest))
        (by rw [sizeL] at hf; omega) (noLeadDigit_cons _ _ (by decide))]
      simp only [skipSpaces_cons _ _ (by decide : isSpaceC ',' = false)]
      rw [parseElems_skip]
      rw [parseElems_print f (v2 :: tail) (v :: acc) rest (by rw [sizeL] at hf; omega)]
      simp
end

mutual
theorem sizeV_le_printVal : ∀ j : Json, sizeV j ≤ (printVal j).length
  | Json.null => by simp [sizeV, printVal]
  | Json.bool true => by simp [sizeV, printVal]
  | Json.bool false => by simp [sizeV, printVal]
  | Json.num n => by
      obtain ⟨c, cs, hcs, _⟩ := printVal_head (Json.num n)
      rw [hcs]
      simp [sizeV]
  | Json.str s => by simp [sizeV, printVal, printStr]
  | Json.arr items => by
      have := sizeL_le_printElems items
      rw [sizeV, printVal]
      simp only [List.length_cons, List.length_append, List.length_singleton]
      omega
  | Json.obj kvs => by
      have := sizeM_le_printMembers kvs
      rw [sizeV, printVal]
      simp only [List.length_cons, List.length_append, List.length_singleton]
      omega

theorem sizeL_le_printElems : ∀ l : List Json, sizeL l ≤ (printElems l).length + 1
  | [] => by simp [sizeL, printElems]
  | [v] => by
      have h1 := sizeV_le_printVal v
      have h2 := sizeV_pos v
      rw [sizeL, sizeL, printElems]
      omega
  | v :: v2 :: tail => by
      have h1 := sizeV_le_printVal v
      have h2 := sizeL_le_printElems (v2 :: tail)
      rw [sizeL, printElems]
      · simp only [List.length_append, List.length_cons]
        omega
      · simp

theorem sizeM_le_printMembers : ∀ ms : List (String × Json), sizeM ms ≤ (printMembers ms).length + 1
  | [] => by simp [sizeM, printMembers]
  | [(k, v)] => by
      have h1 := sizeV_le_printVal v
      have h2 := sizeV_pos v
      rw [sizeM, sizeM, printMembers]
      simp only [List.length_append, List.length_cons]
      omega
  | (k, v) :: m2 :: tail => by
      have h1 := sizeV_le_printVal v
      have h2 := sizeM_le_printMembers (m2 :: tail)
      rw [sizeM, printMembers]
      · simp only [List.length_append, List.length_cons]
        omega
      · simp
end

theorem jsonLoads_dumps (j : Json) : jsonLoads (jsonDumps j) = some j := by
  have hsz := sizeV_le_printVal j
  have h := parseVal_print ((printVal j).length + 1) j [] (by omega) trivial
  rw [List.append_nil] at h
  unfold jsonLoads jsonDumps
  simp [h]

/-! ## Theorems: schema filter (C5) -/

mutual
theorem clean_schema_idem : ∀ kvs,
    clean_schema_for_gemini (clean_schema_for_gemini kvs) = clean_schema_for_gemini kvs
  | [] => by simp [clean_schema_for_gemini]
  | (k, v) :: rest => by
      by_cases h : k ∈ ALLOWED_KEYS
      · simp [clean_schema_for_gemini, h, cleanSchemaValue_idem v, clean_schema_idem rest]
      · simp [clean_schema_for_gemini, h, clean_schema_idem rest]

theorem cleanSchemaValue_idem : ∀ v, cleanSchemaValue (cleanSchemaValue v) = cleanSchemaValue v
  | Json.obj kvs => by simp [cleanSchemaValue, clean_schema_idem kvs]
  | Json.arr items => by simp [cleanSchemaValue, cleanSchemaList_idem items]
  | Json.null => by simp [cleanSchemaValue]
  | Json.bool _ => by simp [cleanSchemaValue]
  | Json.num _ => by simp [cleanSchemaValue]
  | Json.str _ => by simp [cleanSchemaValue]

theorem cleanSchemaList_idem : ∀ items, cleanSchemaList (cleanSchemaList items) = cleanSchemaList items
  | [] => by simp [cleanSchemaList]
  | Json.obj kvs :: rest => by simp [cleanSchemaList, clean_schema_idem kvs, cleanSchemaList_idem rest]
  | Json.null :: rest => by simp [cleanSchemaList, cleanSchemaValue, cleanSchemaList_idem rest]
  | Json.bool _ :: rest => by simp [cleanSchemaList, cleanSchemaValue, cleanSchemaList_idem rest]
  | Json.num _ :: rest => by simp [cleanSchemaList, cleanSchemaValue, cleanSchemaList_idem rest]
  | Json.str _ :: rest => by simp [cleanSchemaList, cleanSchemaValue, cleanSchemaList_idem rest]
  | Json.arr l :: rest => by simp [cleanSchemaList, cleanSchemaValue, cleanSchemaList_idem rest]
end

theorem clean_schema_keys : ∀ kvs : List (String × Json),
    (clean_schema_for_gemini kvs).map Prod.fst =
      (kvs.map Prod.fst).filter (fun k => k ∈ ALLOWED_KEYS)
  | [] => by simp [clean_schema_for_gemini]
  | (k, v) :: rest => by
      by_cases h : k ∈ ALLOWED_KEYS
      · simp [clean_schema_for_gemini, h, clean_schema_keys rest]
      · simp [clean_schema_for_gemini, h, clean_schema_keys rest]

/-- C5: the tool-parameter schema filter keeps exactly the allowlisted keys
`{type, description, enum, items, properties, required, nullable, format}`
at every level its recursion reaches (dict values, and dict elements of
list values), and it is idempotent. -/
theorem schema_filter_allowlist_and_idempotent :
    (∀ kvs : List (String × Json),
      (clean_schema_for_gemini kvs).map Prod.fst =
        (kvs.map Prod.fst).filter (fun k => k ∈ ALLOWED_KEYS)) ∧
    (∀ kvs : List (String × Json),
      clean_schema_for_gemini (clean_schema_for_gemini kvs) = clean_schema_for_gemini kvs) ∧
    (∀ v : Json, cleanSchemaValue (cleanSchemaValue v) = cleanSchemaValue v) :=
  ⟨clean_schema_keys, clean_schema_idem, cleanSchemaValue_idem⟩

/-! ## Theorems: tool-call argument round-trip (C6) and message shape (C10) -/

theorem enumFrom_get? {α : Type} : ∀ (l : List α) (n i : Nat),
    (List.enumFrom n l).get? i = (l.get? i).map (fun a => (n + i, a))
  | [], _, _ => by simp
  | a :: l, n, 0 => by simp
  | a :: l, n, i + 1 => by
      simp only [List.enumFrom, List.get?]
      rw [enumFrom_get? l (n + 1) i]
      cases l.get? i
      · simp
      · simp
        omega

/-- C6: for every upstream `functionCall` part, the emitted
`tool_calls[i].function.arguments` string decodes (with the `json.loads`
model) back to exactly the `args` object the upstream sent. -/
theorem tool_call_arguments_round_trip (parts : List ResponsePart) (ids : Nat → String)
    (i : Nat) (h : i < (extract_gemini_parts parts).2.length) :
    ∃ tc : OpenAIToolCall,
      (build_openai_message parts ids).1.tool_calls.get? i = some tc ∧
      jsonLoads tc.arguments = some ((extract_gemini_parts parts).2.get ⟨i, h⟩).args := by
  have hne : (extract_gemini_parts parts).2.isEmpty = false := by
    cases he : (extract_gemini_parts parts).2 with
    | nil => rw [he] at h; simp at h
    | cons x xs => simp [he]
  refine ⟨OpenAIToolCall.mk (ids i) "function" ((extract_gemini_parts parts).2.get ⟨i, h⟩).name
    (jsonDumps ((extract_gemini_parts parts).2.get ⟨i, h⟩).args), ?_, jsonLoads_dumps _⟩
  simp only [build_openai_message, hne, Bool.false_eq_true, if_false, List.enum]
  rw [List.get?_map, enumFrom_get?]

  rw [List.get?_eq_get h]
  simp

theorem extract_text_all_empty : ∀ (parts : List ResponsePart),
    (∀ p ∈ parts, ∀ s, p.text = some s → s = "") → (extract_gemini_parts parts).1 = ""
  | [], _ => rfl
  | p :: rest, h => by
      have hrest := extract_text_all_empty rest (fun q hq => h q (by simp [hq]))
      simp only [extract_gemini_parts]
      cases ht : p.text with
      | some s =>
          have hs : s = "" := h p (by simp) s ht
          simp [hs, hrest]
      | none =>
          cases p.functionCall <;> simp [hrest]

/-- C10: in the non-streaming OpenAI response, `message.content` is JSON
null (not the empty string) exactly when the upstream candidate has no
non-empty text, and the presence of `functionCall` parts makes
`finish_reason` equal `"tool_calls"`. -/
theorem non_stream_content_null_and_tool_finish (parts : List ResponsePart)
    (ids : Nat → String) :
    ((∀ p ∈ parts, ∀ s, p.text = some s → s = "") →
      (build_openai_message parts ids).1.content = none) ∧
    ((build_openai_message parts ids).1.content = none ↔
      (extract_gemini_parts parts).1 = "") ∧
    ((extract_gemini_parts parts).2 ≠ [] →
      (build_openai_message parts ids).2 = "tool_calls") := by
  refine ⟨?_, ?_, ?_⟩
  · intro h
    have := extract_text_all_empty parts h
    simp [build_openai_message, this]
  · constructor
    · intro h
      by_cases he : (extract_gemini_parts parts).1 = ""
      · exact he
      · simp [build_openai_message, he] at h
    · intro h; simp [build_openai_message, h]
  · intro h
    have : (extract_gemini_parts parts).2.isEmpty = false := by
      cases he : (extract_gemini_parts parts).2 with
      | nil => exact absurd he h
      | cons x xs => simp [he]
    simp [build_openai_message, this]

/-! ## Theorems: generation config (C7) -/

/-- C7 (amended): a requested `max_tokens` above 64000 is clamped to 64000
on both endpoints before becoming `generationConfig.maxOutputTokens`; the
`"[undefined]"` sentinel unsets `temperature` on both endpoints and unsets
`max_tokens` on `/v1/chat/completions`, while `/v1/messages` replaces it by
the default 8192 (it does not unset it). -/
theorem max_tokens_clamp_and_sentinel (n : Int) (hn : 64000 < n) (mct : PyVal) :
    openai_generation_config_max (PyVal.int n) mct = some 64000 ∧
    anthropic_generation_config_max (some (PyVal.int n)) = some 64000 ∧
    temperature_setting (PyVal.str "[undefined]") = none ∧
    openai_generation_config_max (PyVal.str "[undefined]") mct = none ∧
    anthropic_generation_config_max (some (PyVal.str "[undefined]")) = some 8192 := by
  have hne : n ≠ 0 := by omega
  have hmin : min n 64000 = 64000 := by omega
  refine ⟨?_, ?_, by decide, ?_, by decide⟩
  · simp [openai_generation_config_max, openai_max_tokens, pyTruthy, pyToInt, hne, hmin]
  · simp [anthropic_generation_config_max, anthropic_max_tokens, pyToInt, hmin]
  · simp [openai_generation_config_max, openai_max_tokens, pyTruthy]

/-- C7 counterexample: on `/v1/messages`, `max_tokens = "[undefined]"` is
not treated as unset — `generationConfig.maxOutputTokens` is set to the
default 8192. -/
theorem anthropic_undefined_max_tokens_not_unset :
    anthropic_generation_config_max (some (PyVal.str "[undefined]")) = some 8192 ∧
    anthropic_generation_config_max (some (PyVal.str "[undefined]")) ≠ none := by decide

/-- Witness for the amended C7 at `max_tokens = 100000`. -/
theorem max_tokens_clamp_witness :
    openai_generation_config_max (PyVal.int 100000) PyVal.none = some 64000 ∧
    anthropic_generation_config_max (some (PyVal.int 100000)) = some 64000 := by
  have h := max_tokens_clamp_and_sentinel 100000 (by omega) PyVal.none
  exact ⟨h.1, h.2.1⟩

/-! ## Theorems: credential refresh (C4) -/

/-- C4: a 200 refresh stores the new token, `expires_at = now + expires_in`
and `last_sync_at = now`; an `invalid_grant` / `unauthorized_client` error
nulls both `access_token` and `expires_at`; any other failure leaves the
stored credential unchanged. -/
theorem refresh_credential_state_transitions (cred : CredentialState)
    (res : TokenResponse) (now : Nat) :
    (res.status = 200 → ∀ e : Nat, res.expires_in = some e → e ≠ 0 →
      (refresh_credential true cred res now).cred =
        ⟨res.access_token, some (now + e), some now, some now⟩) ∧
    (res.status ≠ 200 →
      (res.error_code = "invalid_grant" ∨ res.error_code = "unauthorized_client") →
      (refresh_credential true cred res now).cred.access_token = none ∧
      (refresh_credential true cred res now).cred.token_expires_at = none) ∧
    (res.status ≠ 200 →
      res.error_code ≠ "invalid_grant" → res.error_code ≠ "unauthorized_client" →
      (refresh_credential true cred res now).cred = cred) := by
  refine ⟨?_, ?_, ?_⟩
  · intro h200 e he hne
    simp [refresh_credential, h200, he, hne]
  · intro hs herr
    simp [refresh_credential, hs, herr]
  · intro hs h1 h2
    simp [refresh_credential, hs, h1, h2]

/-- Witness for C4: a successful refresh, an `invalid_grant` freeze, and an
unrelated failure, on concrete inputs. -/
theorem refresh_credential_witness :
    (refresh_credential true ⟨some "old", some 5, none, none⟩
        ⟨200, "", some "new", some 3600⟩ 7).cred = ⟨some "new", some 3607, some 7, some 7⟩ ∧
    (refresh_credential true ⟨some "old", some 5, none, none⟩
        ⟨400, "invalid_grant", none, none⟩ 7).cred.access_token = none ∧
    (refresh_credential true ⟨some "old", some 5, none, none⟩
        ⟨400, "invalid_grant", none, none⟩ 7).cred.token_expires_at = none ∧
    (refresh_credential true ⟨some "old", some 5, none, none⟩
        ⟨500, "server_error", none, none⟩ 7).cred = ⟨some "old", some 5, none, none⟩ := by
  refine ⟨?_, ?_, ?_, ?_⟩
  · exact (refresh_credential_state_transitions _ _ _).1 rfl 3600 rfl (by decide)
  · exact ((refresh_credential_state_transitions _ _ _).2.1 (by decide) (Or.inl rfl)).1
  · exact ((refresh_credential_state_transitions _ _ _).2.1 (by decide) (Or.inl rfl)).2
  · exact (refresh_credential_state_transitions _ _ _).2.2 (by decide) (by decide) (by decide)

/-- Witness for C6 on a concrete upstream `functionCall` part. -/
theorem tool_call_arguments_round_trip_witness :
    0 < (extract_gemini_parts
      [⟨none, some ⟨some "get_weather", some (Json.obj [("city", Json.str "SF")])⟩⟩]).2.length ∧
    ∃ tc : OpenAIToolCall,
      (build_openai_message
        [⟨none, some ⟨some "get_weather", some (Json.obj [("city", Json.str "SF")])⟩⟩]
        (fun _ => "call_w")).1.tool_calls.get? 0 = some tc ∧
      jsonLoads tc.arguments = some (Json.obj [("city", Json.str "SF")]) := by
  have h : 0 < (extract_gemini_parts
      [⟨none, some ⟨some "get_weather", some (Json.obj [("city", Json.str "SF")])⟩⟩]).2.length := by
    norm_num [extract_gemini_parts]
  refine ⟨h, ?_⟩
  obtain ⟨tc, h1, h2⟩ := tool_call_arguments_round_trip
    [⟨none, some ⟨some "get_weather", some (Json.obj [("city", Json.str "SF")])⟩⟩]
    (fun _ => "call_w") 0 h
  exact ⟨tc, h1, h2.trans rfl⟩

/-- Witness for C10 on a candidate with only a `functionCall` part and an
empty text part. -/
theorem non_stream_content_null_witness :
    (build_openai_message
      [⟨some "", none⟩, ⟨none, some ⟨some "f", some (Json.obj [])⟩⟩]
      (fun _ => "call_w")).1.content = none ∧
    (build_openai_message
      [⟨some "", none⟩, ⟨none, some ⟨some "f", some (Json.obj [])⟩⟩]
      (fun _ => "call_w")).2 = "tool_calls" := by
  have h := non_stream_content_null_and_tool_finish
    [⟨some "", none⟩, ⟨none, some ⟨some "f", some (Json.obj [])⟩⟩] (fun _ => "call_w")
  refine ⟨h.1 ?_, h.2.2 ?_⟩
  · intro p hp s hs
    simp only [List.mem_cons, List.not_mem_nil, or_false] at hp
    rcases hp with rfl | rfl
    · cases hs; rfl
    · cases hs
  · intro hcon
    simp [extract_gemini_parts] at hcon

/-! ## Theorems: quota aggregation (C8) -/

theorem quotaFold_eq : ∀ (buckets : List QuotaBucket) (acc : ℚ) (hb : Bool),
    quotaFold buckets (acc, hb) =
      ((fractions buckets).foldl min acc, hb || !(fractions buckets).isEmpty)
  | [], acc, hb => by simp [quotaFold, fractions]
  | b :: rest, acc, hb => by
      cases hr : b.remainingFraction with
      | none =>
          have := quotaFold_eq rest acc hb
          simp only [quotaFold, List.foldl_cons, hr] at this ⊢
          simpa [fractions, hr] using this
      | some r =>
          have := quotaFold_eq rest (if r < acc then r else acc) true
          simp only [quotaFold, List.foldl_cons, hr] at this ⊢
          rw [this]
          have hmin : min acc r = if r < acc then r else acc := by
            rcases lt_or_le r acc with h | h
            · simp [h, min_eq_right (le_of_lt h)]
            · simp [not_lt.mpr h, min_eq_left h]
          simp [fractions, hr, hmin]

theorem foldl_min_le_init : ∀ (l : List ℚ) (acc : ℚ), l.foldl min acc ≤ acc
  | [], acc => le_refl acc
  | r :: rest, acc =>
      le_trans (foldl_min_le_init rest (min acc r)) (min_le_left acc r)

theorem foldl_min_le_mem : ∀ (l : List ℚ) (acc : ℚ), ∀ r ∈ l, l.foldl min acc ≤ r
  | r0 :: rest, acc, r, hr => by
      rcases List.mem_cons.mp hr with rfl | hr
      · exact le_trans (foldl_min_le_init rest (min acc r)) (min_le_right acc r)
      · exact foldl_min_le_mem rest (min acc r0) r hr

theorem foldl_min_mem : ∀ (l : List ℚ) (acc : ℚ), l.foldl min acc = acc ∨ l.foldl min acc ∈ l
  | [], acc => Or.inl rfl
  | r :: rest, acc => by
      rcases foldl_min_mem rest (min acc r) with h | h
      · rcases min_cases acc r with ⟨hm, _⟩ | ⟨hm, _⟩
        · exact Or.inl (by rw [List.foldl_cons, h, hm])
        · exact Or.inr (by rw [List.foldl_cons, h, hm]; exact List.mem_cons_self _ _)
      · exact Or.inr (List.mem_cons_of_mem _ h)

theorem pyIntTrunc_eq_floor (q : ℚ) (h : 0 ≤ q) : pyIntTrunc q = ⌊q⌋ := by
  rw [pyIntTrunc, Int.tdiv_eq_ediv (Rat.num_nonneg.mpr h) (by positivity), Rat.floor_def]

/-- C8 (amended): when the selected credential's buckets carry at least one
`remainingFraction`, and all fractions lie in `[0, 1]`, the stored
`quota_percent` is `⌊100·(1 − min remainingFraction)⌋` (the code truncates
with `int(...)`), which lies in `[0, 100]`; the GENERIC_CLI credential's
buckets are selected when present and non-empty, otherwise the NATIVE
credential's. -/
theorem quota_percent_floor_and_bounds (g a : List (List QuotaBucket)) (prev : Option Int)
    (buckets : List QuotaBucket) (hsel : select_quota_data g a = some buckets)
    (hex : fractions buckets ≠ [])
    (hrange : ∀ r ∈ fractions buckets, 0 ≤ r ∧ r ≤ 1) :
    ∃ m : ℚ, m ∈ fractions buckets ∧ (∀ r ∈ fractions buckets, m ≤ r) ∧
      compute_quota_percent prev buckets = some ⌊(1 - m) * 100⌋ ∧
      0 ≤ ⌊(1 - m) * 100⌋ ∧ ⌊(1 - m) * 100⌋ ≤ 100 ∧
      ((g ≠ [] ∧ g.headD [] ≠ []) → buckets = g.headD []) := by
  set m := (fractions buckets).foldl min 1 with hm
  have hle1 : m ≤ 1 := foldl_min_le_init _ _
  have hlemem : ∀ r ∈ fractions buckets, m ≤ r := foldl_min_le_mem _ _
  have hmem : m ∈ fractions buckets := by
    rcases foldl_min_mem (fractions buckets) 1 with h | h
    · obtain ⟨r0, hr0⟩ := List.exists_mem_of_ne_nil _ hex
      have h1 : m = 1 := by rw [hm, h]
      have h2 : r0 = m := le_antisymm (by rw [h1]; exact (hrange r0 hr0).2) (hlemem r0 hr0)
      rw [← h2]; exact hr0
    · exact h
  have hm0 : 0 ≤ m := (hrange m hmem).1
  have hval : (0 : ℚ) ≤ (1 - m) * 100 := by nlinarith
  have hval2 : (1 - m) * 100 ≤ 100 := by nlinarith
  refine ⟨m, hmem, hlemem, ?_, ?_, ?_, ?_⟩
  · rw [compute_quota_percent, quotaFold_eq]
    have hne : (fractions buckets).isEmpty = false := by
      cases hc : fractions buckets with
      | nil => exact absurd hc hex
      | cons x xs => simp [hc]
    simp only [hne, Bool.false_or, Bool.not_false, if_pos]
    rw [pyIntTrunc_eq_floor _ hval]
  · exact Int.le_floor.mpr (by exact_mod_cast hval)
  · calc ⌊(1 - m) * 100⌋ ≤ ⌊(100 : ℚ)⌋ := Int.floor_le_floor hval2
      _ = 100 := by norm_num
  · intro ⟨hg, hgh⟩
    have h1 : g.isEmpty = false := by
      cases g with
      | nil => exact absurd rfl hg
      | cons x xs => simp
    have h2 : (g.headD []).isEmpty = false := by
      cases hc : g.headD [] with
      | nil => exact absurd hc hgh
      | cons x xs => simp [hc]
    rw [select_quota_data] at hsel
    simp only [h1, h2, Bool.not_false, Bool.and_self, if_pos] at hsel
    exact (Option.some_inj.mp hsel).symm

/-- C8 counterexample: with a single bucket whose `remainingFraction` is
3/8, the stored `quota_percent` is 62, while `100·(1 − 3/8) = 62.5` — the
claim's exact equality fails because the code truncates with `int(...)`. -/
theorem quota_percent_truncation_counterexample :
    compute_quota_percent none [⟨some (3/8)⟩] = some 62 ∧
    100 * (1 - (3/8 : ℚ)) ≠ (62 : ℚ) := by
  constructor
  · have h2 : ([(3 : ℚ)/8].foldl min 1) = 3/8 := by
      simp [min_eq_right (by norm_num : (3:ℚ)/8 ≤ 1)]
    have h3 := pyIntTrunc_eq_floor ((1 - (3:ℚ)/8) * 100) (by norm_num)
    have h5 : ⌊(1 - (3:ℚ)/8) * 100⌋ = 62 := by
      have h4 : ((1 - (3:ℚ)/8) * 100) = 125/2 := by norm_num
      rw [h4]
      exact Int.floor_eq_iff.mpr ⟨by norm_num, by norm_num⟩
    rw [compute_quota_percent, quotaFold_eq]
    have h1 : fractions [⟨some (3/8)⟩] = [3/8] := rfl
    rw [h1, h2]
    simp only [List.isEmpty_cons, Bool.false_or, Bool.not_false, if_pos]
    rw [h3, h5]
  · norm_num

/-- Witness for the amended C8 at a single bucket with fraction 1/2. -/
theorem quota_percent_witness :
    compute_quota_percent none [⟨some (1/2)⟩] = some 50 := by
  obtain ⟨m, hmem, _, hcomp, _, _, _⟩ := quota_percent_floor_and_bounds
    [[⟨some (1/2)⟩]] [] none [⟨some (1/2)⟩] (by rfl)
    (by simp [fractions])
    (by intro r hr
        have h1 : fractions [⟨some ((1:ℚ)/2)⟩] = [1/2] := rfl
        rw [h1] at hr
        have : r = 1/2 := by simpa using hr
        rw [this]; norm_num)
  have hmv : m = 1/2 := by
    have h1 : fractions [⟨some ((1:ℚ)/2)⟩] = [1/2] := rfl
    rw [h1] at hmem
    simpa using hmem
  rw [hcomp, hmv]
  have h6 : ⌊(1 - (1:ℚ)/2) * 100⌋ = 50 := by
    have h4 : ((1 - (1:ℚ)/2) * 100) = 50 := by norm_num
    rw [h4]
    norm_num
  rw [h6]

/-! ## Theorems: account pool basics -/

theorem read_account_spec (db : List DBAccount) (aid : String) (acc : AccountView)
    (h : read_account db aid = some acc) : acc.id = aid ∧ acc.access_token ≠ "" := by
  unfold read_account at h
  split at h
  · cases h
  · rename_i a hf
    split at h
    · cases h
    · rename_i c hc
      have hfa := List.find?_some hf
      have hca := List.find?_some hc
      have haid : a.id = aid := by simpa using hfa
      have htok : tokenTruthy c.access_token = true := ((Bool.and_eq_true _ _).mp hca).2
      cases hat : c.access_token with
      | none => rw [hat] at htok; simp [tokenTruthy] at htok
      | some s =>
          rw [hat] at htok
          have hs : ¬(s = "") := by simpa [tokenTruthy] using htok
          cases h
          exact ⟨haid, by simpa [hat] using hs⟩

theorem alookup_cons {β : Type} (p : String × β) (m : List (String × β)) (k : String) :
    alookup (p :: m) k = if p.1 = k then some p.2 else alookup m k := by
  unfold alookup
  simp only [List.find?]
  by_cases h : p.1 = k
  · simp [h]
  · rw [decide_eq_false h]
    simp [h]

theorem alookup_aset_self {β : Type} : ∀ (m : List (String × β)) (k : String) (v : β),
    alookup (aset m k v) k = some v
  | [], k, v => by simp [aset, alookup_cons, alookup]
  | p :: rest, k, v => by
      by_cases h : p.1 = k
      · simp [aset, h, alookup_cons]
      · rw [aset, if_neg h, alookup_cons, if_neg h]
        exact alookup_aset_self rest k v

theorem alookup_aset_other {β : Type} : ∀ (m : List (String × β)) (k k2 : String) (v : β),
    k2 ≠ k → alookup (aset m k v) k2 = alookup m k2
  | [], k, k2, v, h => by
      have h1 : ¬((k, v).1 = k2) := fun hh => h hh.symm
      rw [aset, alookup_cons, if_neg h1]
  | p :: rest, k, k2, v, h => by
      by_cases hp : p.1 = k
      · have h1 : ¬((k, v).1 = k2) := fun hh => h hh.symm
        have h2 : ¬(p.1 = k2) := by rw [hp]; exact fun hh => h hh.symm
        rw [aset, if_pos hp, alookup_cons, alookup_cons, if_neg h1, if_neg h2]
      · rw [aset, if_neg hp, alookup_cons, alookup_cons]
        by_cases hp2 : p.1 = k2
        · simp [hp2]
        · rw [if_neg hp2, if_neg hp2]
          exact alookup_aset_other rest k k2 v h

theorem aset_length_le {β : Type} : ∀ (m : List (String × β)) (k : String) (v : β),
    (aset m k v).length ≤ m.length + 1
  | [], k, v => by simp [aset]
  | p :: rest, k, v => by
      by_cases h : p.1 = k
      · simp [aset, h]
      · rw [aset, if_neg h]
        have := aset_length_le rest k v
        simp only [List.length_cons]
        omega

theorem aset_length_eq_of_mem {β : Type} : ∀ (m : List (String × β)) (k : String) (v : β),
    (alookup m k).isSome → (aset m k v).length = m.length
  | [], k, v, h => by simp [alookup, List.find?] at h
  | p :: rest, k, v, h => by
      by_cases hp : p.1 = k
      · simp [aset, hp]
      · rw [alookup_cons, if_neg hp] at h
        rw [aset, if_neg hp]
        simp only [List.length_cons]
        rw [aset_length_eq_of_mem rest k v h]

theorem alookup_aset_isSome {β : Type} (m : List (String × β)) (k : String) (v : β) :
    (alookup (aset m k v) k).isSome := by
  rw [alookup_aset_self]
  rfl

theorem insertByKey_perm {α : Type} (key : α → Nat) (x : α) :
    ∀ l : List α, (insertByKey key x l).Perm (x :: l)
  | [] => List.Perm.refl _
  | y :: ys => by
      rw [insertByKey]
      split
      · exact List.Perm.refl _
      · exact ((insertByKey_perm key x ys).cons y).trans (List.Perm.swap x y ys)

theorem sortByKey_perm {α : Type} (key : α → Nat) :
    ∀ l : List α, (sortByKey key l).Perm l
  | [] => List.Perm.refl _
  | x :: xs =>
      (insertByKey_perm key x (sortByKey key xs)).trans ((sortByKey_perm key xs).cons x)

theorem mem_sortByKey {α : Type} (key : α → Nat) (y : α) (l : List α) :
    y ∈ sortByKey key l ↔ y ∈ l :=
  (sortByKey_perm key l).mem_iff

theorem length_sortByKey {α : Type} (key : α → Nat) (l : List α) :
    (sortByKey key l).length = l.length :=
  (sortByKey_perm key l).length_eq

theorem sortByKey_ne_nil {α : Type} (key : α → Nat) (l : List α) (h : l ≠ []) :
    sortByKey key l ≠ [] := by
  intro hs
  have := length_sortByKey key l
  rw [hs] at this
  cases l with
  | nil => exact h rfl
  | cons a t => simp at this

theorem insertByKey_pairwise {α : Type} (key : α → Nat) (x : α) :
    ∀ l : List α, List.Pairwise (fun a b => key a ≤ key b) l →
      List.Pairwise (fun a b => key a ≤ key b) (insertByKey key x l)
  | [], _ => by simp [insertByKey]
  | y :: ys, h => by
      rw [insertByKey]
      split
      · next hle =>
          refine List.Pairwise.cons ?_ h
          intro b hb
          rcases List.mem_cons.mp hb with rfl | hb
          · exact hle
          · exact le_trans hle ((List.pairwise_cons.mp h).1 b hb)
      · next hlt =>
          have hyx : key y ≤ key x := le_of_not_le hlt
          have hys := (List.pairwise_cons.mp h).2
          refine List.Pairwise.cons ?_ (insertByKey_pairwise key x ys hys)
          intro b hb
          rcases List.mem_cons.mp ((insertByKey_perm key x ys).mem_iff.mp hb) with rfl | h1
          · exact hyx
          · exact (List.pairwise_cons.mp h).1 b h1

theorem sortByKey_pairwise {α : Type} (key : α → Nat) :
    ∀ l : List α, List.Pairwise (fun a b => key a ≤ key b) (sortByKey key l)
  | [] => List.Pairwise.nil
  | x :: xs => insertByKey_pairwise key x (sortByKey key xs) (sortByKey_pairwise key xs)

theorem clean_stale_marks (st : PoolState) (now : Nat) :
    (clean_stale_bindings st now).account_ids = st.account_ids ∧
    (clean_stale_bindings st now).current_index = st.current_index ∧
    (clean_stale_bindings st now).exhausted = st.exhausted ∧
    (clean_stale_bindings st now).rate_limited = st.rate_limited := by
  refine ⟨?_, ?_, ?_, ?_⟩ <;> (simp only [clean_stale_bindings]; split <;> rfl)

theorem is_available_congr (s1 s2 : PoolState) (now : Nat) (aid : String)
    (h1 : s1.exhausted = s2.exhausted) (h2 : s1.rate_limited = s2.rate_limited) :
    is_available s1 now aid = is_available s2 now aid := by
  unfold is_available
  rw [h1, h2]

theorem assign_least_loaded_spec (st : PoolState)
    (h : ∃ x ∈ st.account_ids, st.exhausted.contains x = false) :
    assign_least_loaded st ∈ st.account_ids ∧
    st.exhausted.contains (assign_least_loaded st) = false := by
  obtain ⟨x, hx, hxe⟩ := h
  have hxc : x ∈ st.account_ids.filter (fun aid => !(st.exhausted.contains aid)) :=
    List.mem_filter.mpr ⟨hx, by simpa using hxe⟩
  have hne : st.account_ids.filter (fun aid => !(st.exhausted.contains aid)) ≠ [] := by
    intro hnil
    rw [hnil] at hxc
    cases hxc
  have hie : (st.account_ids.filter (fun aid => !(st.exhausted.contains aid))).isEmpty = false := by
    cases hc : st.account_ids.filter (fun aid => !(st.exhausted.contains aid)) with
    | nil => exact absurd hc hne
    | cons a t => simp [hc]
  unfold assign_least_loaded
  simp only [hie, Bool.false_eq_true, if_false]
  cases hs : sortByKey (bindingCount st)
      (st.account_ids.filter (fun aid => !(st.exhausted.contains aid))) with
  | nil => exact absurd hs (sortByKey_ne_nil _ _ hne)
  | cons c rest =>
      have hcm : c ∈ st.account_ids.filter (fun aid => !(st.exhausted.contains aid)) := by
        have : c ∈ sortByKey (bindingCount st)
            (st.account_ids.filter (fun aid => !(st.exhausted.contains aid))) := by
          rw [hs]; exact List.mem_cons_self _ _
        exact (mem_sortByKey _ _ _).mp this
      obtain ⟨hmem, hflt⟩ := List.mem_filter.mp hcm
      exact ⟨hmem, by simpa using hflt⟩

theorem assign_new_binding_spec (db : List DBAccount) (st : PoolState) (now : Nat) (fp : String)
    (hread : ∀ aid ∈ st.account_ids, (read_account db aid).isSome)
    (hx : ∃ x ∈ st.account_ids, st.exhausted.contains x = false) :
    ∃ acc, assign_new_binding db st now fp =
      ⟨some acc,
       { st with
          session_bindings := aset st.session_bindings fp (assign_least_loaded st)
          binding_timestamps := aset st.binding_timestamps fp now }, now⟩ ∧
      read_account db (assign_least_loaded st) = some acc := by
  obtain ⟨hmem, _⟩ := assign_least_loaded_spec st hx
  obtain ⟨acc, hacc⟩ := Option.isSome_iff_exists.mp (hread _ hmem)
  refine ⟨acc, ?_, hacc⟩
  simp only [assign_new_binding]
  rw [hacc]

theorem find_available_fallback_spec (st : PoolState) (now : Nat) (fb : String)
    (h : find_available_fallback st now = some fb) :
    fb ∈ st.account_ids ∧ is_available st now fb = true := by
  unfold find_available_fallback at h
  exact ⟨List.mem_of_find?_eq_some h, List.find?_some h⟩

theorem balance_recover_spec (db : List DBAccount) (st : PoolState) (now : Nat) (fp : String)
    (hread : ∀ aid ∈ st.account_ids, (read_account db aid).isSome)
    (hx : ∃ x ∈ st.account_ids, st.exhausted.contains x = false) :
    ∃ acc, (balance_recover db st now fp).account = some acc ∧
      st.exhausted.contains acc.id = false ∧
      (balance_recover db st now fp).state.exhausted = st.exhausted ∧
      (balance_recover db st now fp).state.rate_limited = st.rate_limited ∧
      (balance_recover db st now fp).state.account_ids = st.account_ids ∧
      (balance_recover db st now fp).state.session_bindings.length ≤
        st.session_bindings.length + 1 := by
  unfold balance_recover
  cases hfb : find_available_fallback st now with
  | some fb =>
      obtain ⟨hfbm, hfba⟩ := find_available_fallback_spec st now fb hfb
      obtain ⟨acc, hacc⟩ := Option.isSome_iff_exists.mp (hread _ hfbm)
      simp only []
      rw [hacc]
      simp only []
      refine ⟨acc, by trivial, ?_, by trivial, by trivial, by trivial, by omega⟩
      have hid : acc.id = fb := (read_account_spec db fb acc hacc).1
      rw [hid]
      unfold is_available at hfba
      split at hfba
      · cases hfba
      · next hcon => simpa using hcon
  | none =>
      obtain ⟨acc, heq, hacc⟩ := assign_new_binding_spec db st now fp hread hx
      simp only []
      rw [heq]
      obtain ⟨hmem, hnex⟩ := assign_least_loaded_spec st hx
      have hid : acc.id = assign_least_loaded st := (read_account_spec db _ acc hacc).1
      exact ⟨acc, rfl, by rw [hid]; exact hnex, rfl, rfl, rfl, aset_length_le _ _ _⟩

theorem is_available_not_exhausted (st : PoolState) (now : Nat) (aid : String)
    (h : is_available st now aid = true) : st.exhausted.contains aid = false := by
  unfold is_available at h
  split at h
  · cases h
  · next hc => simpa using hc

theorem get_current_random_spec (db : List DBAccount) (pick : Nat) (st : PoolState) (now : Nat)
    (hx : ∃ x ∈ st.account_ids, is_available st now x = true) :
    (get_current_random db pick st now).state = st ∧
    (∀ acc, (get_current_random db pick st now).account = some acc →
      is_available st now acc.id = true) := by
  obtain ⟨x, hxm, hxa⟩ := hx
  have hmem : x ∈ st.account_ids.filter (is_available st now) :=
    List.mem_filter.mpr ⟨hxm, hxa⟩
  have hie : (st.account_ids.filter (is_available st now)).isEmpty = false := by
    cases hc : st.account_ids.filter (is_available st now) with
    | nil => rw [hc] at hmem; cases hmem
    | cons a t => simp [hc]
  have hlen : 0 < (st.account_ids.filter (is_available st now)).length := by
    cases hc : st.account_ids.filter (is_available st now) with
    | nil => rw [hc] at hmem; cases hmem
    | cons a t => simp [hc]
  have hidx : pick % (st.account_ids.filter (is_available st now)).length <
      (st.account_ids.filter (is_available st now)).length := Nat.mod_lt _ hlen
  have hgd : (st.account_ids.filter (is_available st now)).getD
      (pick % (st.account_ids.filter (is_available st now)).length) "" =
      (st.account_ids.filter (is_available st now))[pick % (st.account_ids.filter (is_available st now)).length] :=
    List.getD_eq_getElem _ _ hidx
  have haidm : (st.account_ids.filter (is_available st now))[pick % (st.account_ids.filter (is_available st now)).length] ∈
      st.account_ids.filter (is_available st now) := List.getElem_mem hidx
  have haida : is_available st now
      ((st.account_ids.filter (is_available st now))[pick % (st.account_ids.filter (is_available st now)).length]) = true :=
    (List.mem_filter.mp haidm).2
  unfold get_current_random
  simp only [hie, Bool.false_eq_true, if_false, hgd]
  cases hr : read_account db
      ((st.account_ids.filter (is_available st now))[pick % (st.account_ids.filter (is_available st now)).length]) with
  | none => exact ⟨rfl, by intro acc hacc; cases hacc⟩
  | some acc =>
      refine ⟨rfl, ?_⟩
      intro acc2 hacc2
      have : acc = acc2 := by simpa using hacc2
      subst this
      rw [(read_account_spec db _ acc hr).1]
      exact haida

theorem get_current_bound_balance_spec (db : List DBAccount) (fp : String)
    (st : PoolState) (now : Nat)
    (hread : ∀ aid ∈ st.account_ids, (read_account db aid).isSome)
    (hx : ∃ x ∈ st.account_ids, st.exhausted.contains x = false) :
    (get_current_bound db "balance" fp st now).state.exhausted = st.exhausted ∧
    (get_current_bound db "balance" fp st now).state.rate_limited = st.rate_limited ∧
    (get_current_bound db "balance" fp st now).state.account_ids = st.account_ids ∧
    (get_current_bound db "balance" fp st now).state.session_bindings.length ≤
      st.session_bindings.length + 1 ∧
    (∀ acc, (get_current_bound db "balance" fp st now).account = some acc →
      st.exhausted.contains acc.id = false) := by
  unfold get_current_bound
  cases hb : alookup st.session_bindings fp with
  | none =>
      simp only []
      obtain ⟨acc, heq, hacc⟩ := assign_new_binding_spec db st now fp hread hx
      rw [heq]
      obtain ⟨_, hnex⟩ := assign_least_loaded_spec st hx
      refine ⟨by trivial, by trivial, by trivial, aset_length_le _ _ _, ?_⟩
      intro acc2 hacc2
      have : acc = acc2 := by simpa using hacc2
      subst this
      rw [(read_account_spec db _ acc hacc).1]
      exact hnex
  | some bound =>
      simp only []
      by_cases hbm : st.account_ids.contains bound
      · rw [if_pos hbm]
        set st1 : PoolState := { st with binding_timestamps := aset st.binding_timestamps fp now } with hst1
        have e1 : st1.exhausted = st.exhausted := rfl
        have e2 : st1.rate_limited = st.rate_limited := rfl
        have e3 : st1.account_ids = st.account_ids := rfl
        have e4 : st1.session_bindings = st.session_bindings := rfl
        by_cases hav : is_available st1 now bound
        · rw [if_pos hav]
          cases hr : read_account db bound with
          | some acc =>
              simp only []
              refine ⟨by trivial, by trivial, by trivial, by omega, ?_⟩
              intro acc2 hacc2
              have : acc = acc2 := by simpa using hacc2
              subst this
              rw [(read_account_spec db _ acc hr).1]
              rw [← e1]
              exact is_available_not_exhausted st1 now bound hav
          | none =>
              simp only []
              obtain ⟨acc, ha1, ha2, ha3, ha4, ha5, ha6⟩ :=
                balance_recover_spec db st1 now fp
                  (by rw [e3]; exact hread) (by rw [e1, e3]; exact hx)
              have hne : ¬("balance" = "cache_first") := by decide
              rw [if_neg hne]
              refine ⟨by rw [ha3, e1], by rw [ha4, e2], by rw [ha5, e3], by rw [e4] at ha6; omega, ?_⟩
              intro acc2 hacc2
              rw [ha1] at hacc2
              have : acc = acc2 := by simpa using hacc2
              subst this
              rw [← e1]
              exact ha2
        · rw [if_neg hav]
          simp only []
          obtain ⟨acc, ha1, ha2, ha3, ha4, ha5, ha6⟩ :=
            balance_recover_spec db st1 now fp
              (by rw [e3]; exact hread) (by rw [e1, e3]; exact hx)
          have hne : ¬("balance" = "cache_first") := by decide
          rw [if_neg hne]
          refine ⟨by rw [ha3, e1], by rw [ha4, e2], by rw [ha5, e3], by rw [e4] at ha6; omega, ?_⟩
          intro acc2 hacc2
          rw [ha1] at hacc2
          have : acc = acc2 := by simpa using hacc2
          subst this
          rw [← e1]
          exact ha2
      · rw [if_neg hbm]
        obtain ⟨acc, heq, hacc⟩ := assign_new_binding_spec db st now fp hread hx
        rw [heq]
        obtain ⟨_, hnex⟩ := assign_least_loaded_spec st hx
        refine ⟨by trivial, by trivial, by trivial, aset_length_le _ _ _, ?_⟩
        intro acc2 hacc2
        have : acc = acc2 := by simpa using hacc2
        subst this
        rw [(read_account_spec db _ acc hacc).1]
        exact hnex

theorem assign_new_binding_token (db : List DBAccount) (st : PoolState) (now : Nat)
    (fp : String) (acc : AccountView)
    (h : (assign_new_binding db st now fp).account = some acc) : acc.access_token ≠ "" := by
  simp only [assign_new_binding] at h
  split at h
  · rename_i a hr
    have hae : a = acc := by simpa using h
    subst hae
    exact (read_account_spec db _ _ hr).2
  · split at h
    · cases h
    · split at h
      · rename_i a hr
        have hae : a = acc := by simpa using h
        subst hae
        exact (read_account_spec db _ _ hr).2
      · cases h

theorem balance_recover_token (db : List DBAccount) (st : PoolState) (now : Nat)
    (fp : String) (acc : AccountView)
    (h : (balance_recover db st now fp).account = some acc) : acc.access_token ≠ "" := by
  simp only [balance_recover] at h
  split at h
  · split at h
    · rename_i a hr
      have hae : a = acc := by simpa using h
      subst hae
      exact (read_account_spec db _ _ hr).2
    · exact assign_new_binding_token db _ _ _ _ h
  · exact assign_new_binding_token db _ _ _ _ h

theorem cache_first_recover_token (db : List DBAccount) (st : PoolState) (now : Nat)
    (fp bound : String) (acc : AccountView)
    (h : (cache_first_recover db st now fp bound).account = some acc) :
    acc.access_token ≠ "" := by
  simp only [cache_first_recover] at h
  split at h
  · rename_i r hr
    split at hr
    · split at hr
      · rename_i a hrd
        cases hr
        have hae : a = acc := by simpa using h
        subst hae
        exact (read_account_spec db _ _ hrd).2
      · cases hr
    · cases hr
  · split at h
    · split at h
      · rename_i a hrd
        have hae : a = acc := by simpa using h
        subst hae
        exact (read_account_spec db _ _ hrd).2
      · exact assign_new_binding_token db _ _ _ _ h
    · exact assign_new_binding_token db _ _ _ _ h

theorem get_current_bound_token (db : List DBAccount) (mode fp : String)
    (st : PoolState) (now : Nat) (acc : AccountView)
    (h : (get_current_bound db mode fp st now).account = some acc) :
    acc.access_token ≠ "" := by
  simp only [get_current_bound] at h
  split at h
  · split at h
    · split at h
      · rename_i r hr
        split at hr
        · split at hr
          · rename_i a hrd
            cases hr
            have hae : a = acc := by simpa using h
            subst hae
            exact (read_account_spec db _ _ hrd).2
          · cases hr
        · cases hr
      · split at h
        · exact cache_first_recover_token db _ _ _ _ _ h
        · exact balance_recover_token db _ _ _ _ h
    · exact assign_new_binding_token db _ _ _ _ h
  · exact assign_new_binding_token db _ _ _ _ h

theorem get_current_random_token (db : List DBAccount) (pick : Nat) (st : PoolState)
    (now : Nat) (acc : AccountView)
    (h : (get_current_random db pick st now).account = some acc) : acc.access_token ≠ "" := by
  simp only [get_current_random] at h
  split at h
  · rename_i a hr
    have hae : a = acc := by simpa using h
    subst hae
    exact (read_account_spec db _ _ hr).2
  · cases h

theorem get_current_token (db : List DBAccount) (mode : String) (fp? : Option String)
    (pick : Nat) (st : PoolState) (now : Nat) (acc : AccountView)
    (h : (get_current db mode fp? pick st now).account = some acc) :
    acc.access_token ≠ "" := by
  simp only [get_current] at h
  split at h
  · cases h
  · split at h
    · exact get_current_random_token db _ _ _ _ h
    · exact get_current_bound_token db _ _ _ _ _ h

theorem is_available_of_mark (s : PoolState) (t d : Nat) (aid : String)
    (h : alookup s.rate_limited aid = some d) (ht : t < d) : is_available s t aid = false := by
  unfold is_available
  split
  · rfl
  · rw [h]
    simp
    omega

theorem is_available_aset_other (st : PoolState) (t : Nat) (x failed : String) (d : Nat)
    (hne : x ≠ failed) :
    is_available { st with rate_limited := aset st.rate_limited failed d } t x =
      is_available st t x := by
  unfold is_available
  simp only []
  rw [alookup_aset_other st.rate_limited failed x d hne]

theorem get_current_none_marks (db : List DBAccount) (mode : String) (pick : Nat)
    (st : PoolState) (now : Nat)
    (hx : ∃ x ∈ st.account_ids, is_available st now x = true) :
    (get_current db mode none pick st now).state.exhausted = st.exhausted ∧
    (get_current db mode none pick st now).state.rate_limited = st.rate_limited := by
  have hclean := clean_stale_marks st now
  have hne : st.account_ids.isEmpty = false := by
    obtain ⟨x, hxm, _⟩ := hx
    cases hc : st.account_ids with
    | nil => rw [hc] at hxm; cases hxm
    | cons a t => simp [hc]
  have hxc : ∃ x ∈ (clean_stale_bindings st now).account_ids,
      is_available (clean_stale_bindings st now) now x = true := by
    obtain ⟨x, hxm, hxa⟩ := hx
    exact ⟨x, by rw [hclean.1]; exact hxm,
      by rw [is_available_congr _ st now x hclean.2.2.1 hclean.2.2.2]; exact hxa⟩
  have hrand := get_current_random_spec db pick (clean_stale_bindings st now) now hxc
  simp only [get_current, hne, Bool.false_eq_true, if_false, Option.isNone_none,
    Bool.or_true, if_true]
  rw [hrand.1]
  exact ⟨hclean.2.2.1, hclean.2.2.2⟩

theorem get_current_preserves_marks (db : List DBAccount) (mode : String) (fp? : Option String)
    (pick : Nat) (st : PoolState) (now : Nat)
    (hmode : mode = "balance" ∨ mode = "performance")
    (hread : ∀ aid ∈ st.account_ids, (read_account db aid).isSome)
    (hx : ∃ x ∈ st.account_ids, is_available st now x = true) :
    (get_current db mode fp? pick st now).state.exhausted = st.exhausted ∧
    (get_current db mode fp? pick st now).state.rate_limited = st.rate_limited := by
  have hclean := clean_stale_marks st now
  have hne : st.account_ids.isEmpty = false := by
    obtain ⟨x, hxm, _⟩ := hx
    cases hc : st.account_ids with
    | nil => rw [hc] at hxm; cases hxm
    | cons a t => simp [hc]
  by_cases hcond : (mode = "performance" || fp?.isNone) = true
  · have hxc : ∃ x ∈ (clean_stale_bindings st now).account_ids,
        is_available (clean_stale_bindings st now) now x = true := by
      obtain ⟨x, hxm, hxa⟩ := hx
      exact ⟨x, by rw [hclean.1]; exact hxm,
        by rw [is_available_congr _ st now x hclean.2.2.1 hclean.2.2.2]; exact hxa⟩
    have hrand := get_current_random_spec db pick (clean_stale_bindings st now) now hxc
    simp only [get_current, hne, Bool.false_eq_true, if_false, hcond, if_true]
    rw [hrand.1]
    exact ⟨hclean.2.2.1, hclean.2.2.2⟩
  · have hbal : mode = "balance" := by
      rcases hmode with h | h
      · exact h
      · rw [h] at hcond; simp at hcond
    subst hbal
    have hxc : ∃ x ∈ (clean_stale_bindings st now).account_ids,
        (clean_stale_bindings st now).exhausted.contains x = false := by
      obtain ⟨x, hxm, hxa⟩ := hx
      refine ⟨x, by rw [hclean.1]; exact hxm, ?_⟩
      rw [hclean.2.2.1]
      exact is_available_not_exhausted st now x hxa
    have hreadc : ∀ aid ∈ (clean_stale_bindings st now).account_ids,
        (read_account db aid).isSome := by
      rw [hclean.1]; exact hread
    have hbound := get_current_bound_balance_spec db (fp?.getD "")
      (clean_stale_bindings st now) now hreadc hxc
    simp only [get_current, hne, Bool.false_eq_true, if_false, hcond]
    exact ⟨by rw [hbound.1, hclean.2.2.1], by rw [hbound.2.1, hclean.2.2.2]⟩

/-- C1 (amended): in `performance` mode, `get_current` never returns an
unavailable account while an available one exists; in `balance` mode it
never returns an exhausted account while a non-exhausted one exists (the
least-loaded rebinding ignores rate-limit marks — see the counterexample);
every returned account carries a non-empty access token, read fresh from
the store.  The pool is assumed to resolve every pooled id to a usable
credential row. -/
theorem pool_get_current_amended (db : List DBAccount) (fp : String) (pick : Nat)
    (st : PoolState) (now : Nat)
    (hread : ∀ aid ∈ st.account_ids, (read_account db aid).isSome) :
    (∀ acc, (get_current db "performance" (some fp) pick st now).account = some acc →
      acc.access_token ≠ "" ∧
      ((∃ x ∈ st.account_ids, is_available st now x = true) →
        is_available st now acc.id = true)) ∧
    (∀ acc, (get_current db "balance" (some fp) pick st now).account = some acc →
      acc.access_token ≠ "" ∧
      ((∃ x ∈ st.account_ids, st.exhausted.contains x = false) →
        st.exhausted.contains acc.id = false)) := by
  have hclean := clean_stale_marks st now
  constructor
  · intro acc hacc
    refine ⟨get_current_token db _ _ _ _ _ _ hacc, ?_⟩
    intro hx
    have hne : st.account_ids.isEmpty = false := by
      obtain ⟨x, hxm, _⟩ := hx
      cases hc : st.account_ids with
      | nil => rw [hc] at hxm; cases hxm
      | cons a t => simp [hc]
    have hxc : ∃ x ∈ (clean_stale_bindings st now).account_ids,
        is_available (clean_stale_bindings st now) now x = true := by
      obtain ⟨x, hxm, hxa⟩ := hx
      exact ⟨x, by rw [hclean.1]; exact hxm,
        by rw [is_available_congr _ st now x hclean.2.2.1 hclean.2.2.2]; exact hxa⟩
    have hrand := get_current_random_spec db pick (clean_stale_bindings st now) now hxc
    simp only [get_current, hne, Bool.false_eq_true, if_false] at hacc
    simp at hacc
    have := hrand.2 acc hacc
    rw [is_available_congr _ st now acc.id hclean.2.2.1 hclean.2.2.2] at this
    exact this
  · intro acc hacc
    refine ⟨get_current_token db _ _ _ _ _ _ hacc, ?_⟩
    intro hx
    have hne : st.account_ids.isEmpty = false := by
      obtain ⟨x, hxm, _⟩ := hx
      cases hc : st.account_ids with
      | nil => rw [hc] at hxm; cases hxm
      | cons a t => simp [hc]
    have hxc : ∃ x ∈ (clean_stale_bindings st now).account_ids,
        (clean_stale_bindings st now).exhausted.contains x = false := by
      obtain ⟨x, hxm, hxa⟩ := hx
      exact ⟨x, by rw [hclean.1]; exact hxm, by rw [hclean.2.2.1]; exact hxa⟩
    have hreadc : ∀ aid ∈ (clean_stale_bindings st now).account_ids,
        (read_account db aid).isSome := by
      rw [hclean.1]; exact hread
    have hbound := get_current_bound_balance_spec db fp
      (clean_stale_bindings st now) now hreadc hxc
    simp only [get_current, hne, Bool.false_eq_true, if_false] at hacc
    simp at hacc
    have := hbound.2.2.2.2 acc hacc
    rw [hclean.2.2.1] at this
    exact this

/-- C1 counterexample: in `balance` mode, a fresh session is bound by
least-loaded assignment, which ignores rate-limit marks: with account "a"
rate-limited until t=100 and "b" fully available, `get_current` at t=0
returns the rate-limited "a". -/
theorem pool_get_current_counterexample :
    ((get_current
        [⟨"a", "a@x", [⟨"antigravity", some "tok-a", none⟩]⟩,
         ⟨"b", "b@x", [⟨"antigravity", some "tok-b", none⟩]⟩]
        "balance" (some "s") 0
        (PoolState.mk ["a", "b"] 0 [] [("a", 100)] [] []) 0).account.map AccountView.id =
      some "a") ∧
    is_available (PoolState.mk ["a", "b"] 0 [] [("a", 100)] [] []) 0 "a" = false ∧
    is_available (PoolState.mk ["a", "b"] 0 [] [("a", 100)] [] []) 0 "b" = true := by
  decide

/-- Witness for the amended C1: in `balance` mode with no marks, the
returned account has a non-empty token and is not exhausted. -/
theorem pool_get_current_amended_witness :
    (AccountView.mk "a" "a@x" "tok-a" none).access_token ≠ "" ∧
    (PoolState.mk ["a", "b"] 0 [] [] [] []).exhausted.contains
      (AccountView.mk "a" "a@x" "tok-a" none).id = false := by
  have hacc : (get_current
      [⟨"a", "a@x", [⟨"antigravity", some "tok-a", none⟩]⟩,
       ⟨"b", "b@x", [⟨"antigravity", some "tok-b", none⟩]⟩]
      "balance" (some "s") 0 (PoolState.mk ["a", "b"] 0 [] [] [] []) 0).account =
      some (AccountView.mk "a" "a@x" "tok-a" none) := by decide
  have h := (pool_get_current_amended
      [⟨"a", "a@x", [⟨"antigravity", some "tok-a", none⟩]⟩,
       ⟨"b", "b@x", [⟨"antigravity", some "tok-b", none⟩]⟩]
      "s" 0 (PoolState.mk ["a", "b"] 0 [] [] [] []) 0 (by decide)).2 _ hacc
  exact ⟨h.1, h.2 ⟨"a", by decide, by decide⟩⟩

theorem alookup_filter_refresh (m : List (String × Nat)) (ids : List String)
    (failed : String) (d tR : Nat) (hd : alookup m failed = some d)
    (hmem : failed ∈ ids) (htR : tR < d) :
    alookup (m.filter (fun p => ids.contains p.1 && decide (p.2 > tR))) failed = some d := by
  induction m with
  | nil => simp [alookup, List.find?] at hd
  | cons p rest ih =>
      rw [alookup_cons] at hd
      by_cases hp : p.1 = failed
      · rw [if_pos hp] at hd
        have hval : p.2 = d := by simpa using hd
        have hkeep : (ids.contains p.1 && decide (p.2 > tR)) = true := by
          rw [Bool.and_eq_true]
          exact ⟨by rw [hp]; simp [hmem], by rw [hval]; simpa using htR⟩
        rw [List.filter_cons, if_pos hkeep, alookup_cons, if_pos hp, hval]
      · rw [if_neg hp] at hd
        rw [List.filter_cons]
        split
        · rw [alookup_cons, if_neg hp]
          exact ih hd
        · exact ih hd

/-- C2 (amended): `rotate(id, rate_limited)` stores
`rate_limited[id] = now + 60`, and the account stays unavailable at every
time before that deadline; the mark survives `refresh` (when the account is
still eligible and the deadline has not passed) and survives `get_current`
in `balance`/`performance` mode as long as some other account remains
available — when no account is available the documented self-heal clears
all marks (see the counterexample). -/
theorem rotate_rate_limited_amended (db : List DBAccount) (mode : String) (pick : Nat)
    (st : PoolState) (now : Nat) (failed : String)
    (hx : ∃ x ∈ st.account_ids, x ≠ failed ∧ is_available st now x = true) :
    alookup (rotate db mode pick st now failed "rate_limited").state.rate_limited failed =
      some (now + 60) ∧
    (∀ t, t < now + 60 →
      is_available (rotate db mode pick st now failed "rate_limited").state t failed = false) ∧
    (∀ (s2 : PoolState) (ids : List String) (d tR t : Nat),
      alookup s2.rate_limited failed = some d → failed ∈ ids → tR < d → t < d →
      is_available (pool_refresh ids s2 tR) t failed = false) ∧
    (∀ (s2 : PoolState) (mode2 : String) (fp? : Option String) (d t now2 : Nat),
      alookup s2.rate_limited failed = some d → t < d →
      (mode2 = "balance" ∨ mode2 = "performance") →
      (∀ aid ∈ s2.account_ids, (read_account db aid).isSome) →
      (∃ x ∈ s2.account_ids, is_available s2 now2 x = true) →
      is_available (get_current db mode2 fp? pick s2 now2).state t failed = false) := by
  obtain ⟨x, hxm, hxne, hxa⟩ := hx
  set st2 : PoolState :=
    { st with
      rate_limited := aset st.rate_limited failed (now + 60)
      current_index :=
        ({ st with rate_limited := aset st.rate_limited failed (now + 60) }.current_index + 1) %
          max st.account_ids.length 1 } with hst2
  have hst2rl : st2.rate_limited = aset st.rate_limited failed (now + 60) := rfl
  have hst2ids : st2.account_ids = st.account_ids := rfl
  have hst2ex : st2.exhausted = st.exhausted := rfl
  have hx2 : ∃ y ∈ st2.account_ids, is_available st2 now y = true := by
    refine ⟨x, by rw [hst2ids]; exact hxm, ?_⟩
    have heq : is_available st2 now x = is_available st now x := by
      unfold is_available
      rw [hst2ex, hst2rl, alookup_aset_other st.rate_limited failed x (now + 60) hxne]
    rw [heq]
    exact hxa
  have hpres := get_current_none_marks db mode pick st2 now hx2
  have hrw : (rotate db mode pick st now failed "rate_limited").state =
      (get_current db mode none pick st2 now).state := by
    unfold rotate
    simp only [reduceIte]
  refine ⟨?_, ?_, ?_, ?_⟩
  · rw [hrw, hpres.2, hst2rl, alookup_aset_self]
  · intro t ht
    apply is_available_of_mark _ _ (now + 60) _ ?_ ht
    rw [hrw, hpres.2, hst2rl, alookup_aset_self]
  · intro s2 ids d tR t hd hmem htR ht
    apply is_available_of_mark _ _ d _ ?_ ht
    show alookup (pool_refresh ids s2 tR).rate_limited failed = some d
    unfold pool_refresh
    simp only []
    exact alookup_filter_refresh _ _ _ _ _ hd hmem htR
  · intro s2 mode2 fp? d t now2 hd ht hmode2 hread2 hx2b
    have hpres2 := get_current_preserves_marks db mode2 fp? pick s2 now2 hmode2 hread2 hx2b
    apply is_available_of_mark _ _ d _ ?_ ht
    rw [hpres2.2]
    exact hd

/-- C2 counterexample: with a single-account pool, `rotate(a, rate_limited)`
itself re-runs `get_current`, whose self-heal clears all marks because no
account is available — the account is available again immediately, long
before the 60-second deadline. -/
theorem rotate_self_heal_counterexample :
    ((rotate [⟨"a", "a@x", [⟨"antigravity", some "tok-a", none⟩]⟩] "balance" 0
        (PoolState.mk ["a"] 0 [] [] [] []) 0 "a" "rate_limited").state.rate_limited = []) ∧
    is_available (rotate [⟨"a", "a@x", [⟨"antigravity", some "tok-a", none⟩]⟩] "balance" 0
        (PoolState.mk ["a"] 0 [] [] [] []) 0 "a" "rate_limited").state 0 "a" = true ∧
    (0 : Nat) < 0 + 60 := by
  decide

/-- Witness for the amended C2: with a second available account, the mark is
set to `now + 60` and the account is unavailable at t = 59. -/
theorem rotate_rate_limited_witness :
    alookup (rotate
        [⟨"a", "a@x", [⟨"antigravity", some "tok-a", none⟩]⟩,
         ⟨"b", "b@x", [⟨"antigravity", some "tok-b", none⟩]⟩]
        "balance" 0 (PoolState.mk ["a", "b"] 0 [] [] [] []) 0
        "a" "rate_limited").state.rate_limited "a" = some 60 ∧
    is_available (rotate
        [⟨"a", "a@x", [⟨"antigravity", some "tok-a", none⟩]⟩,
         ⟨"b", "b@x", [⟨"antigravity", some "tok-b", none⟩]⟩]
        "balance" 0 (PoolState.mk ["a", "b"] 0 [] [] [] []) 0
        "a" "rate_limited").state 59 "a" = false := by
  have h := rotate_rate_limited_amended
      [⟨"a", "a@x", [⟨"antigravity", some "tok-a", none⟩]⟩,
       ⟨"b", "b@x", [⟨"antigravity", some "tok-b", none⟩]⟩]
      "balance" 0 (PoolState.mk ["a", "b"] 0 [] [] [] []) 0 "a"
      ⟨"b", by decide, by decide, by decide⟩
  exact ⟨h.1, h.2.1 59 (by omega)⟩

/-! ## Theorems: binding eviction (C9) -/

theorem alookup_eq_none {β : Type} (m : List (String × β)) (k : String) :
    alookup m k = none ↔ ∀ p ∈ m, p.1 ≠ k := by
  unfold alookup
  rw [Option.map_eq_none']
  rw [List.find?_eq_none]
  simp

theorem alookup_filter_none {β : Type} (m : List (String × β)) (q : String × β → Bool)
    (k : String) (h : alookup m k = none) : alookup (m.filter q) k = none := by
  rw [alookup_eq_none] at h ⊢
  intro p hp
  exact h p (List.mem_of_mem_filter hp)

theorem alookup_mem {β : Type} (m : List (String × β)) (k : String) (v : β)
    (h : alookup m k = some v) : (k, v) ∈ m := by
  unfold alookup at h
  cases hf : m.find? (fun p => p.1 = k) with
  | none => rw [hf] at h; cases h
  | some p =>
      rw [hf] at h
      have hp := List.find?_some hf
      have hm := List.mem_of_find?_eq_some hf
      have h1 : p.1 = k := by simpa using hp
      have h2 : p.2 = v := by simpa using h
      have : p = (k, v) := by
        cases p
        simp_all
      rwa [this] at hm

theorem alookup_nodup_mem {β : Type} : ∀ (m : List (String × β)) (k : String) (v : β),
    (m.map Prod.fst).Nodup → (k, v) ∈ m → alookup m k = some v
  | [], k, v, _, h => by cases h
  | p :: rest, k, v, hnd, h => by
      rw [List.map_cons, List.nodup_cons] at hnd
      rw [alookup_cons]
      rcases List.mem_cons.mp h with rfl | hmem
      · simp
      · have hk : ¬(p.1 = k) := by
          intro he
          exact hnd.1 (he ▸ (List.mem_map_of_mem Prod.fst hmem))
        rw [if_neg hk]
        exact alookup_nodup_mem rest k v hnd.2 hmem

theorem filter_fst_map {β : Type} (m : List (String × β)) (q : String → Bool) :
    (m.filter (fun p => q p.1)).map Prod.fst = (m.map Prod.fst).filter q := by
  induction m with
  | nil => rfl
  | cons p rest ih =>
      rw [List.map_cons, List.filter_cons, List.filter_cons]
      by_cases h : q p.1 = true
      · rw [if_pos h, if_pos h, List.map_cons, ih]
      · rw [if_neg h, if_neg h, ih]

theorem length_filter_not_add {α : Type} (l : List α) (q : α → Bool) :
    (l.filter (fun a => !(q a))).length + (l.filter q).length = l.length := by
  induction l with
  | nil => rfl
  | cons a l ih =>
      by_cases h : q a = true <;>
        simp [List.filter_cons, h, ← ih] <;> omega

theorem filter_key_map {β : Type} (m : List (String × β)) (E : List String) :
    (m.filter (fun p => !(E.contains p.1))).map Prod.fst =
      (m.map Prod.fst).filter (fun x => !(E.contains x)) := by
  induction m with
  | nil => rfl
  | cons p rest ih =>
      rw [List.map_cons, List.filter_cons, List.filter_cons]
      by_cases h : (!(E.contains p.1)) = true
      · rw [if_pos h, if_pos h, List.map_cons, ih]
      · rw [if_neg h, if_neg h, ih]

theorem filter_keyin_map {β : Type} (m : List (String × β)) (R : List String) :
    (m.filter (fun p => R.contains p.1)).map Prod.fst =
      (m.map Prod.fst).filter (fun x => R.contains x) := by
  induction m with
  | nil => rfl
  | cons p rest ih =>
      rw [List.map_cons, List.filter_cons, List.filter_cons]
      by_cases h : R.contains p.1 = true
      · rw [if_pos h, if_pos h, List.map_cons, ih]
      · rw [if_neg h, if_neg h, ih]

theorem length_filter_remove {β : Type} (sb : List (String × β)) (R : List String)
    (hndR : R.Nodup)
    (hsub : ∀ x ∈ R, x ∈ sb.map Prod.fst) :
    (sb.filter (fun p => !(R.contains p.1))).length + R.length ≤ sb.length := by
  have h1 := length_filter_not_add sb (fun p => R.contains p.1)
  have h3 : List.Subperm R ((sb.map Prod.fst).filter (fun x => R.contains x)) :=
    List.Nodup.subperm hndR (fun x hx => by
      rw [List.mem_filter]
      exact ⟨hsub x hx, by simp [hx]⟩)
  have h4 := h3.length_le
  have h5 : ((sb.map Prod.fst).filter (fun x => R.contains x)).length =
      (sb.filter (fun p => R.contains p.1)).length := by
    rw [← filter_keyin_map sb R, List.length_map]
  omega

theorem clean_length_le (st : PoolState) (now : Nat)
    (hkeys : st.session_bindings.map Prod.fst = st.binding_timestamps.map Prod.fst)
    (hnodup : (st.session_bindings.map Prod.fst).Nodup) :
    (clean_stale_bindings st now).session_bindings.length ≤ MAX_BINDINGS := by
  unfold clean_stale_bindings
  simp only []
  split
  · next hover =>
    set E := ((st.binding_timestamps.filter
        (fun p => now - p.2 > BINDING_TTL)).map Prod.fst) with hE
    set sbf := st.session_bindings.filter (fun p => !(E.contains p.1)) with hsbf
    set btf := st.binding_timestamps.filter (fun p => !(E.contains p.1)) with hbtf
    set R := ((sortByKey Prod.snd btf).map Prod.fst).take (sbf.length - MAX_BINDINGS) with hR
    have hkf : sbf.map Prod.fst = btf.map Prod.fst := by
      rw [hsbf, hbtf, filter_key_map, filter_key_map, hkeys]
    have hndf : (sbf.map Prod.fst).Nodup := by
      rw [hsbf, filter_key_map]
      exact hnodup.filter _
    have hsndk : ((sortByKey Prod.snd btf).map Prod.fst).Perm (sbf.map Prod.fst) := by
      rw [hkf]
      exact (sortByKey_perm Prod.snd btf).map Prod.fst
    have hndR : R.Nodup := by
      rw [hR]
      exact List.Nodup.sublist (List.take_sublist _ _) (hsndk.nodup_iff.mpr hndf)
    have hsub : ∀ x ∈ R, x ∈ sbf.map Prod.fst := by
      intro x hx
      exact hsndk.mem_iff.mp (List.mem_of_mem_take hx)
    have hlenR : R.length = sbf.length - MAX_BINDINGS := by
      rw [hR, List.length_take, List.length_map, length_sortByKey]
      have hlbt : btf.length = sbf.length := by
        have h6 := congrArg List.length hkf
        simpa using h6.symm
      omega
    have h7 := length_filter_remove sbf R hndR hsub
    show (sbf.filter (fun p => !(R.contains p.1))).length ≤ MAX_BINDINGS
    omega
  · next hnot =>
    exact Nat.le_of_not_lt hnot

theorem key_inj {β : Type} : ∀ (l : List (String × β)), (l.map Prod.fst).Nodup →
    ∀ a b : String × β, a ∈ l → b ∈ l → a.1 = b.1 → a = b
  | [], _, a, _, ha, _, _ => by cases ha
  | p :: rest, hnd, a, b, ha, hb, hk => by
      rw [List.map_cons, List.nodup_cons] at hnd
      rcases List.mem_cons.mp ha with rfl | ha2 <;> rcases List.mem_cons.mp hb with rfl | hb2
      · rfl
      · exact absurd (by rw [hk]; exact List.mem_map_of_mem Prod.fst hb2) hnd.1
      · exact absurd (by rw [← hk]; exact List.mem_map_of_mem Prod.fst ha2) hnd.1
      · exact key_inj rest hnd.2 a b ha2 hb2 hk

theorem clean_ttl (st : PoolState) (now : Nat) (k : String) (ts : Nat)
    (h : alookup st.binding_timestamps k = some ts) (hexp : now - ts > BINDING_TTL) :
    alookup (clean_stale_bindings st now).session_bindings k = none := by
  unfold clean_stale_bindings
  simp only []
  have hkE : k ∈ ((st.binding_timestamps.filter
      (fun p => now - p.2 > BINDING_TTL)).map Prod.fst) := by
    have hm := alookup_mem _ _ _ h
    have hf : (k, ts) ∈ st.binding_timestamps.filter (fun p => now - p.2 > BINDING_TTL) := by
      rw [List.mem_filter]
      exact ⟨hm, by simpa using hexp⟩
    exact List.mem_map_of_mem Prod.fst hf
  have hnone : alookup (st.session_bindings.filter
      (fun p => !(((st.binding_timestamps.filter
        (fun p => now - p.2 > BINDING_TTL)).map Prod.fst).contains p.1))) k = none := by
    rw [alookup_eq_none]
    intro p hp hpk
    rw [List.mem_filter] at hp
    have h2 := hp.2
    rw [hpk] at h2
    simp [hkE] at h2
  split
  · exact alookup_filter_none _ _ _ hnone
  · exact hnone

theorem clean_oldest_first (st : PoolState) (now : Nat)
    (hkeys : st.session_bindings.map Prod.fst = st.binding_timestamps.map Prod.fst)
    (hnodup : (st.session_bindings.map Prod.fst).Nodup)
    (p q : String × Nat)
    ( _hp : p ∈ st.binding_timestamps) (hq : q ∈ st.binding_timestamps)
    (hpk : alookup (clean_stale_bindings st now).binding_timestamps p.1 = some p.2)
    (hqexp : ¬(now - q.2 > BINDING_TTL))
    (hqk : alookup (clean_stale_bindings st now).binding_timestamps q.1 = none) :
    q.2 ≤ p.2 := by
  have hndbt : (st.binding_timestamps.map Prod.fst).Nodup := hkeys ▸ hnodup
  unfold clean_stale_bindings at hpk hqk
  simp only [] at hpk hqk
  set E := ((st.binding_timestamps.filter (fun p => now - p.2 > BINDING_TTL)).map Prod.fst)
    with hE
  set sbf := st.session_bindings.filter (fun p => !(E.contains p.1)) with hsbf
  set btf := st.binding_timestamps.filter (fun p => !(E.contains p.1)) with hbtf
  have hndbtf : (btf.map Prod.fst).Nodup := by
    rw [hbtf, filter_key_map]
    exact hndbt.filter _
  have hqE : ¬(q.1 ∈ E) := by
    intro hqe
    rw [hE] at hqe
    rcases List.mem_map.mp hqe with ⟨e, he, hek⟩
    rw [List.mem_filter] at he
    have heq : e = q := key_inj st.binding_timestamps hndbt e q he.1 hq hek
    rw [heq] at he
    exact hqexp (by simpa using he.2)
  have hqbtf : q ∈ btf := by
    rw [hbtf, List.mem_filter]
    refine ⟨hq, ?_⟩
    simp [hqE]
  by_cases hover : sbf.length > MAX_BINDINGS
  · rw [if_pos hover] at hpk hqk
    set m := sbf.length - MAX_BINDINGS with hm
    set sorted := sortByKey Prod.snd btf with hsorted
    set R := (sorted.map Prod.fst).take m with hR
    have hpk2 : alookup (btf.filter (fun p => !(R.contains p.1))) p.1 = some p.2 := hpk
    have hqk2 : alookup (btf.filter (fun p => !(R.contains p.1))) q.1 = none := hqk
    have hnd_res : ((btf.filter (fun p => !(R.contains p.1))).map Prod.fst).Nodup := by
      rw [filter_key_map]
      exact hndbtf.filter _
    have hq_in_R : q.1 ∈ R := by
      by_contra hnR
      have hq_res : q ∈ btf.filter (fun p => !(R.contains p.1)) := by
        rw [List.mem_filter]
        refine ⟨hqbtf, ?_⟩
        simp [hnR]
      have hsome : alookup (btf.filter (fun p => !(R.contains p.1))) q.1 = some q.2 := by
        apply alookup_nodup_mem _ _ _ hnd_res
        rw [Prod.mk.eta]
        exact hq_res
      rw [hqk2] at hsome
      cases hsome
    have hp_res : (p.1, p.2) ∈ btf.filter (fun p => !(R.contains p.1)) :=
      alookup_mem _ _ _ hpk2
    rw [Prod.mk.eta] at hp_res
    rw [List.mem_filter] at hp_res
    have hp_btf : p ∈ btf := hp_res.1
    have hp_nR : ¬(p.1 ∈ R) := by
      have h2 := hp_res.2
      intro hmem
      simp [hmem] at h2
    have hperm : sorted.Perm btf := sortByKey_perm Prod.snd btf
    have hRmap : R = (sorted.take m).map Prod.fst := by
      rw [hR, List.map_take]
    have hq_take : q ∈ sorted.take m := by
      have h3 : q.1 ∈ (sorted.take m).map Prod.fst := by rw [← hRmap]; exact hq_in_R
      rcases List.mem_map.mp h3 with ⟨e, he, hek⟩
      have he_btf : e ∈ btf := hperm.mem_iff.mp (List.mem_of_mem_take he)
      have heq : e = q := key_inj btf hndbtf e q he_btf hqbtf hek
      rwa [heq] at he
    have hp_drop : p ∈ sorted.drop m := by
      have hps : p ∈ sorted := hperm.mem_iff.mpr hp_btf
      rw [← List.take_append_drop m sorted, List.mem_append] at hps
      rcases hps with hpt | hpd
      · exact absurd (by rw [hRmap]; exact List.mem_map_of_mem Prod.fst hpt) hp_nR
      · exact hpd
    have hpair := sortByKey_pairwise Prod.snd btf
    rw [← hsorted, ← List.take_append_drop m sorted, List.pairwise_append] at hpair
    exact hpair.2.2 q hq_take p hp_drop
  · rw [if_neg hover] at hqk
    have hqk2 : alookup btf q.1 = none := hqk
    have hsome : alookup btf q.1 = some q.2 := by
      apply alookup_nodup_mem _ _ _ hndbtf
      rw [Prod.mk.eta]
      exact hqbtf
    rw [hqk2] at hsome
    cases hsome

theorem assign_new_binding_sb (db : List DBAccount) (st : PoolState) (now : Nat) (fp : String) :
    (assign_new_binding db st now fp).state.session_bindings =
      aset st.session_bindings fp (assign_least_loaded st) := by
  unfold assign_new_binding
  simp only []
  split
  · rfl
  · split
    · rfl
    · split <;> rfl

theorem assign_new_binding_sb_len (db : List DBAccount) (s : PoolState) (now : Nat)
    (fp : String) :
    (assign_new_binding db s now fp).state.session_bindings.length ≤
      s.session_bindings.length + 1 := by
  rw [assign_new_binding_sb]
  exact aset_length_le _ _ _

theorem assign_new_binding_after_aset (db : List DBAccount) (s : PoolState)
    (now now2 : Nat) (fp aid : String) :
    (assign_new_binding db
        { s with
          session_bindings := aset s.session_bindings fp aid
          binding_timestamps := aset s.binding_timestamps fp now2 } now fp).state.session_bindings.length ≤
      s.session_bindings.length + 1 := by
  rw [assign_new_binding_sb]
  simp only []
  rw [aset_length_eq_of_mem _ _ _ (alookup_aset_isSome _ _ _)]
  exact aset_length_le _ _ _

theorem cache_first_recover_sb_len (db : List DBAccount) (st : PoolState) (now : Nat)
    (fp bound : String) :
    (cache_first_recover db st now fp bound).state.session_bindings.length ≤
      st.session_bindings.length + 1 := by
  unfold cache_first_recover
  simp only []
  split
  · rename_i r hr
    split at hr
    · rename_i untl hu
      split at hr
      · rename_i acc ha
        cases hr
        simp
      · cases hr
    · cases hr
  · split
    · rename_i hex
      split
      · rename_i acc ha
        split <;> (rename_i hrl; exact aset_length_le _ _ _)
      · rename_i ha
        split <;> (rename_i hrl; exact assign_new_binding_after_aset db _ now _ fp _)
    · rename_i hex
      split <;> (rename_i hrl; exact assign_new_binding_sb_len db _ now fp)

theorem balance_recover_sb_len (db : List DBAccount) (st : PoolState) (now : Nat)
    (fp : String) :
    (balance_recover db st now fp).state.session_bindings.length ≤
      st.session_bindings.length + 1 := by
  unfold balance_recover
  split
  · rename_i fb hfb
    split
    · rename_i acc ha
      simp
    · exact assign_new_binding_sb_len db st now fp
  · exact assign_new_binding_sb_len db st now fp

theorem get_current_bound_sb_len (db : List DBAccount) (mode fp : String)
    (st : PoolState) (now : Nat) :
    (get_current_bound db mode fp st now).state.session_bindings.length ≤
      st.session_bindings.length + 1 := by
  unfold get_current_bound
  cases hb : alookup st.session_bindings fp with
  | none =>
      simp only []
      exact assign_new_binding_sb_len db st now fp
  | some bound =>
      simp only []
      by_cases hbm : st.account_ids.contains bound
      · rw [if_pos hbm]
        set st1 : PoolState :=
          { st with binding_timestamps := aset st.binding_timestamps fp now } with hst1
        have e4 : st1.session_bindings = st.session_bindings := rfl
        by_cases hav : is_available st1 now bound
        · rw [if_pos hav]
          cases hr : read_account db bound with
          | some acc =>
              simp only []
              omega
          | none =>
              simp only []
              split
              · have h1 := cache_first_recover_sb_len db st1 now fp bound
                rw [e4] at h1
                exact h1
              · have h1 := balance_recover_sb_len db st1 now fp
                rw [e4] at h1
                exact h1
        · rw [if_neg hav]
          simp only []
          split
          · have h1 := cache_first_recover_sb_len db st1 now fp bound
            rw [e4] at h1
            exact h1
          · have h1 := balance_recover_sb_len db st1 now fp
            rw [e4] at h1
            exact h1
      · rw [if_neg hbm]
        exact assign_new_binding_sb_len db st now fp

theorem get_current_random_sb (db : List DBAccount) (pick : Nat) (st : PoolState)
    (now : Nat) :
    (get_current_random db pick st now).state.session_bindings = st.session_bindings := by
  unfold get_current_random
  simp only []
  split <;> (split <;> rfl)

theorem get_current_sb_len (db : List DBAccount) (mode : String) (fp? : Option String)
    (pick : Nat) (st : PoolState) (now : Nat)
    (hkeys : st.session_bindings.map Prod.fst = st.binding_timestamps.map Prod.fst)
    (hnodup : (st.session_bindings.map Prod.fst).Nodup)
    (hids : st.account_ids ≠ []) :
    (get_current db mode fp? pick st now).state.session_bindings.length ≤
      MAX_BINDINGS + 1 := by
  unfold get_current
  have hie : ¬(st.account_ids.isEmpty = true) := by
    simpa using hids
  rw [if_neg hie]
  simp only []
  have hclean := clean_length_le st now hkeys hnodup
  split
  · rw [get_current_random_sb]
    have h2 := hclean
    omega
  · have h3 := get_current_bound_sb_len db mode (fp?.getD "") (clean_stale_bindings st now) now
    omega

set_option maxRecDepth 100000 in
/-- C9 counterexample: a pool already holding `MAX_BINDINGS` fresh bindings
accepts a new session and leaves `MAX_BINDINGS + 1` bindings in the map; the
bound is only restored by the cleanup of the next call. -/
theorem bindings_overflow_counterexample :
    (get_current dbC9 "balance" (some "new") 0 stC9 0).state.session_bindings.length =
      MAX_BINDINGS + 1 := by
  rfl

/-- C9 (amended): `_clean_stale_bindings` itself enforces the bound and the
eviction policy — after it runs the binding map holds at most
`MAX_BINDINGS` entries, every entry idle beyond `BINDING_TTL` is gone, and
among non-expired entries every evicted one is no newer than every
surviving one (oldest-access-time first); but the bound is transient, not
an at-all-times invariant: a `get_current` call can leave up to
`MAX_BINDINGS + 1` entries, the cleanup only restoring the bound on the
next call (see the counterexample). -/
theorem bindings_bounded_amended (st : PoolState) (now : Nat)
    (hkeys : st.session_bindings.map Prod.fst = st.binding_timestamps.map Prod.fst)
    (hnodup : (st.session_bindings.map Prod.fst).Nodup) :
    (clean_stale_bindings st now).session_bindings.length ≤ MAX_BINDINGS ∧
    (∀ k ts, alookup st.binding_timestamps k = some ts → now - ts > BINDING_TTL →
      alookup (clean_stale_bindings st now).session_bindings k = none) ∧
    (∀ p q : String × Nat, p ∈ st.binding_timestamps → q ∈ st.binding_timestamps →
      alookup (clean_stale_bindings st now).binding_timestamps p.1 = some p.2 →
      ¬(now - q.2 > BINDING_TTL) →
      alookup (clean_stale_bindings st now).binding_timestamps q.1 = none →
      q.2 ≤ p.2) ∧
    (∀ (db : List DBAccount) (mode : String) (fp? : Option String) (pick : Nat),
      st.account_ids ≠ [] →
      (get_current db mode fp? pick st now).state.session_bindings.length ≤
        MAX_BINDINGS + 1) := by
  refine ⟨clean_length_le st now hkeys hnodup, ?_, ?_, ?_⟩
  · intro k ts h hexp
    exact clean_ttl st now k ts h hexp
  · intro p q hp hq hpk hqexp hqk
    exact clean_oldest_first st now hkeys hnodup p q hp hq hpk hqexp hqk
  · intro db mode fp? pick hids
    exact get_current_sb_len db mode fp? pick st now hkeys hnodup hids

/-- Witness for the amended C9 at a one-binding state. -/
theorem bindings_bounded_witness :
    (stC9w.session_bindings.map Prod.fst = stC9w.binding_timestamps.map Prod.fst) ∧
    ((stC9w.session_bindings.map Prod.fst).Nodup) ∧
    ((clean_stale_bindings stC9w 10).session_bindings.length ≤ MAX_BINDINGS ∧
     (∀ k ts, alookup stC9w.binding_timestamps k = some ts → 10 - ts > BINDING_TTL →
       alookup (clean_stale_bindings stC9w 10).session_bindings k = none) ∧
     (∀ p q : String × Nat, p ∈ stC9w.binding_timestamps → q ∈ stC9w.binding_timestamps →
       alookup (clean_stale_bindings stC9w 10).binding_timestamps p.1 = some p.2 →
       ¬(10 - q.2 > BINDING_TTL) →
       alookup (clean_stale_bindings stC9w 10).binding_timestamps q.1 = none →
       q.2 ≤ p.2) ∧
     (∀ (db : List DBAccount) (mode : String) (fp? : Option String) (pick : Nat),
       stC9w.account_ids ≠ [] →
       (get_current db mode fp? pick stC9w 10).state.session_bindings.length ≤
         MAX_BINDINGS + 1)) :=
  ⟨by decide, by decide, bindings_bounded_amended stC9w 10 (by decide) (by decide)⟩


/-! ## Theorems: 404 handling (C3) -/

theorem translator_loop_404 (accounts : Nat → Option String) (aid : Nat → String)
    (upstream : Nat → Nat × List Char) (maxr : Nat)
    (hacc : ∀ n, accounts n = some (aid n))
    (hup : ∀ n, (upstream n).1 = 404) :
    ∀ (b attempt : Nat) (calls : List PoolCall), 1 ≤ b → attempt + b = maxr →
      translator_loop accounts upstream maxr b attempt calls =
        ⟨404, calls ++ (List.range' attempt b).map
          (fun i => PoolCall.rotateCall (aid i) RotateReason.model_not_found), maxr⟩
  | 0, _, _, hb, _ => by omega
  | b + 1, attempt, calls, _, hm => by
      rw [translator_loop]
      rw [hacc attempt]
      simp only []
      have hd : handle_non_stream_dispatch (upstream attempt).1 (upstream attempt).2 =
          (some RotateReason.model_not_found, 404) := by
        rw [hup attempt]
        rfl
      rw [hd]
      simp only []
      by_cases hlt : attempt + 1 < maxr
      · rw [if_neg (by simp), if_pos (⟨by simp, hlt⟩)]
        have hb1 : 1 ≤ b := by omega
        have hm1 : (attempt + 1) + b = maxr := by omega
        rw [translator_loop_404 accounts aid upstream maxr hacc hup b (attempt + 1) _ hb1 hm1]
        simp [List.range'_succ]
      · have hb0 : b = 0 := by omega
        subst hb0
        rw [if_neg (by simp), if_neg (fun h => hlt h.2)]
        have h1 : attempt + 1 = maxr := by omega
        rw [h1]
        simp [List.range'_one]

/-- C3 (amended): an upstream HTTP 404 is classified MODEL_NOT_FOUND and
answered with `pool.rotate(account, model_not_found)` plus a retry on the
translator paths only — `_handle_non_stream` and `_handle_stream` both
rotate, and the `chat_completions` / `anthropic_messages` loop retries
until the budget `min(pool.size, 5)` is exhausted, making exactly that many
attempts and rotations — while the native passthrough
`handle_proxy_request` performs no rotation on 404 and returns the 404 to
the client after a single attempt. -/
theorem http_404_rotation_amended (poolSize : Nat) (accounts : Nat → Option String)
    (aid : Nat → String) (upstream : Nat → Nat × List Char) (body : List Char)
    (hpool : 1 ≤ poolSize)
    (hacc : ∀ n, accounts n = some (aid n))
    (hup : ∀ n, (upstream n).1 = 404) :
    handle_non_stream_dispatch 404 body = (some RotateReason.model_not_found, 404) ∧
    handle_stream_dispatch 404 body = (some RotateReason.model_not_found, 404) ∧
    translator_forward_sim poolSize accounts upstream =
      ⟨404, (List.range' 0 (min poolSize 5)).map
        (fun i => PoolCall.rotateCall (aid i) RotateReason.model_not_found),
        min poolSize 5⟩ ∧
    handle_proxy_dispatch 404 body = none ∧
    handle_proxy_request_sim poolSize accounts upstream = ⟨404, [], 1⟩ := by
  refine ⟨rfl, rfl, ?_, rfl, ?_⟩
  · unfold translator_forward_sim
    have hmax : max (min poolSize 5) 1 = min poolSize 5 := by omega
    rw [hmax]
    exact translator_loop_404 accounts aid upstream (min poolSize 5) hacc hup
      (min poolSize 5) 0 [] (by omega) (by omega)
  · unfold handle_proxy_request_sim
    obtain ⟨b, hb⟩ : ∃ b, max (min poolSize 5) 1 = b + 1 :=
      ⟨max (min poolSize 5) 1 - 1, by omega⟩
    rw [hb, proxy_loop, hacc 0]
    simp only []
    have hd : handle_proxy_dispatch (upstream 0).1 (upstream 0).2 = none := by
      rw [hup 0]
      rfl
    rw [hd]
    simp only []
    rw [hup 0]

/-- C3 counterexample: with two accounts and an upstream that always
returns 404, the native passthrough makes one attempt, calls nothing on the
pool, and returns the 404 as-is — whereas the translator loop on the same
input rotates `model_not_found` twice before surfacing the 404. -/
theorem passthrough_404_counterexample :
    handle_proxy_request_sim 2 (fun _ => some "a") (fun _ => (404, [])) =
      ⟨404, [], 1⟩ ∧
    translator_forward_sim 2 (fun _ => some "a") (fun _ => (404, [])) =
      ⟨404, [PoolCall.rotateCall "a" RotateReason.model_not_found,
             PoolCall.rotateCall "a" RotateReason.model_not_found], 2⟩ :=
  ⟨rfl, rfl⟩

/-- Witness for the amended C3 at a two-account pool and an always-404
upstream. -/
theorem http_404_rotation_witness :
    (1 ≤ 2) ∧
    (∀ n : Nat, (fun _ : Nat => some "a") n = some ((fun _ : Nat => "a") n)) ∧
    (∀ n : Nat, ((fun _ : Nat => ((404 : Nat), ([] : List Char))) n).1 = 404) ∧
    (handle_non_stream_dispatch 404 [] = (some RotateReason.model_not_found, 404) ∧
     handle_stream_dispatch 404 [] = (some RotateReason.model_not_found, 404) ∧
     translator_forward_sim 2 (fun _ : Nat => some "a") (fun _ : Nat => ((404 : Nat), ([] : List Char))) =
       ⟨404, (List.range' 0 (min 2 5)).map
         (fun i => PoolCall.rotateCall ((fun _ : Nat => "a") i) RotateReason.model_not_found),
         min 2 5⟩ ∧
     handle_proxy_dispatch 404 [] = none ∧
     handle_proxy_request_sim 2 (fun _ : Nat => some "a") (fun _ : Nat => ((404 : Nat), ([] : List Char))) =
       ⟨404, [], 1⟩) :=
  ⟨by decide, fun _ => rfl, fun _ => rfl,
    http_404_rotation_amended 2 _ _ _ [] (by decide) (fun _ => rfl) (fun _ => rfl)⟩

end NullGravity
